import Mathlib

/-!
Shallow embedding of `src/backend/vector_store.py` (class `SupabaseVectorStore`).

Python values that the module manipulates are modelled by the inductive
`PyVal`; Python dicts by insertion-ordered association lists (`Dict`).
NumPy arrays are modelled by `EmbInput.ndarray` (a plain numeric vector with
integer entries, since the module never does arithmetic on the entries);
anything that is not an `np.ndarray` by `EmbInput.notArray`.  `str.lower`
and `str.isalnum` are modelled on ASCII.

Each public operation is a pure function of its arguments plus a
`RemoteOutcome` describing how the single remote call would answer; it
returns the list of remote calls actually issued (the trace) together with
an `Except PyError` result.  `PyError.valueError` models Python
`ValueError`, `PyError.connectionError` models `SupabaseConnectionError`,
and `PyError.attributeError` models `AttributeError` (which the code's
bare `raise` at the end of `add_embeddings` re-raises unchanged).
-/

inductive PyVal where
  | none
  | str (s : String)
  | int (n : Int)
  | arr (xs : List PyVal)

abbrev Dict := List (String × PyVal)

/-- Python `d.get(k, dv)` / `d[k]` lookup on an insertion-ordered dict. -/
def dictLookup : Dict → String → Option PyVal
  | [], _ => Option.none
  | (k', v) :: rest, k => if k' = k then Option.some v else dictLookup rest k

/-- Python `d.get(k, dv)`. -/
def dictGet (d : Dict) (k : String) (dv : PyVal) : PyVal :=
  match dictLookup d k with
  | Option.some v => v
  | Option.none => dv

/-- Python `d[k] = v`: overwrite in place if the key exists, else append. -/
def dictSet : Dict → String → PyVal → Dict
  | [], k, v => [(k, v)]
  | (k', v') :: rest, k, v =>
    if k' = k then (k, v) :: rest else (k', v') :: dictSet rest k v

inductive PyError where
  | valueError (msg : String)
  | connectionError (msg : String)
  | attributeError (msg : String)

/-- Argument passed in an `embeddings` position: either a genuine
`np.ndarray` (carried as its plain numeric list) or something else. -/
inductive EmbInput where
  | ndarray (xs : List Int)
  | notArray (v : PyVal)

def isNd : EmbInput → Bool
  | EmbInput.ndarray _ => true
  | EmbInput.notArray _ => false

/-- Outcome of the one remote call an operation issues: a successful
response (with its `data`), a response whose `error` attribute is truthy
(carrying the JSON-serialized error payload), or a raised exception. -/
inductive RemoteOutcome where
  | ok (data : List Dict)
  | errorField (payload : String)
  | raised (msg : String)

/-- Remote request actually issued, as observable by the Supabase client. -/
inductive RemoteCall where
  | insert (table : String) (records : List Dict)
  | rpc (fname : String) (queryEmbedding : List Int) (matchThreshold : Rat) (matchCount : Int)
  | deleteEq (table : String) (constraints : List (String × PyVal))

/-- Configuration fixed at construction (`__init__`). -/
structure StoreConfig where
  table_name : String
  embedding_column : String
  content_column : String
  metadata_columns : List String

def defaultConfig : StoreConfig :=
  { table_name := "song_embeddings"
  , embedding_column := "embedding"
  , content_column := "content"
  , metadata_columns := [] }

/-- ASCII model of Python `str.lower` on one character: code points 65-90
(`A`-`Z`) are shifted by 32 to `a`-`z`, everything else is unchanged. -/
def lowerChar (c : Char) : Char :=
  if 65 ≤ c.toNat ∧ c.toNat ≤ 90 then Char.ofNat (c.toNat + 32) else c

/-- ASCII model of Python `str.lower`. -/
def strLower (s : String) : String := String.mk (s.data.map lowerChar)

/-- Line 128/129: `''.join(c if c.isalnum() else '_' for c in s)`. -/
def sanitizeL (cs : List Char) : List Char :=
  cs.map (fun c => if c.isAlphanum then c else '_')

/-- Python `s.split('_')` on a character list. -/
def splitUS : List Char → List (List Char)
  | [] => [[]]
  | c :: rest =>
    if c = '_' then [] :: splitUS rest
    else
      match splitUS rest with
      | [] => [[c]]
      | p :: ps => (c :: p) :: ps

/-- Python `'_'.join(parts)` on character lists. -/
def joinUS : List (List Char) → List Char
  | [] => []
  | [p] => p
  | p :: ps => p ++ '_' :: joinUS ps

/-- Lines 128-132 applied to the already lower-cased title and artist:
sanitize each, join as `f"{artist}_{title}"`, then
`'_'.join(filter(None, track_id.split('_')))`. -/
def derive_core (t a : String) : String :=
  String.mk (joinUS ((splitUS (sanitizeL a.data ++ '_' :: sanitizeL t.data)).filter
    (fun p => !p.isEmpty)))

/-- The full ID derivation as a pure function of the raw title and artist
strings (lower-casing included). -/
def derive_id (title artist : String) : String :=
  derive_core (strLower title) (strLower artist)

/-- Python `.lower()` on a dict value: succeeds on strings, raises
`AttributeError` on anything else. -/
def pyLower : PyVal → Except PyError String
  | PyVal.str s => Except.ok (strLower s)
  | PyVal.int _ => Except.error (PyError.attributeError "int object has no attribute lower")
  | PyVal.none => Except.error (PyError.attributeError "NoneType object has no attribute lower")
  | PyVal.arr _ => Except.error (PyError.attributeError "list object has no attribute lower")

/-- Lines 122-134: compute `track_id` for one item.  `mt` is the truthiness
of the whole `metadata` argument, `md` the item's own metadata dict. -/
def deriveTrackId (mt : Bool) (md : Dict) : Except PyError (Option String) :=
  if mt && !md.isEmpty then
    match pyLower (dictGet md "title" (PyVal.str "")) with
    | Except.error e => Except.error e
    | Except.ok t =>
      match pyLower (dictGet md "artist" (PyVal.str "")) with
      | Except.error e => Except.error e
      | Except.ok a =>
        if !t.isEmpty && !a.isEmpty then Except.ok (Option.some (derive_core t a))
        else Except.ok Option.none
  else Except.ok Option.none

def idVal : Option String → PyVal
  | Option.some s => PyVal.str s
  | Option.none => PyVal.none

/-- Line 134: `metadata[i]['id'] = track_id` (only when an id was derived). -/
def mdWithId (tid : Option String) (md : Dict) : Dict :=
  match tid with
  | Option.some t => dictSet md "id" (PyVal.str t)
  | Option.none => md

/-- Lines 142-145: copy each allow-listed metadata column present in the
item's metadata into the record. -/
def addMetaCols (cols : List String) (md : Dict) (r : Dict) : Dict :=
  cols.foldl (fun acc k =>
    match dictLookup md k with
    | Option.some v => dictSet acc k v
    | Option.none => acc) r

/-- Lines 136-145: the record built for one item.  `md` is the item's
metadata dict after the id injection. -/
def buildRecord (cfg : StoreConfig) (tid : Option String) (xs : List Int) (s : String)
    (mt : Bool) (md : Dict) : Dict :=
  let base := dictSet (dictSet (dictSet [] "id" (idVal tid))
    cfg.embedding_column (PyVal.arr (xs.map PyVal.int))) cfg.content_column (PyVal.str s)
  if mt then addMetaCols cfg.metadata_columns md base else base

def contentOk : PyVal → Bool
  | PyVal.str s => !s.isEmpty
  | _ => false

/-- One iteration of the loop at lines 113-147: validate the item, derive
the id (mutating the item's metadata), build the record.  Returns the
record together with the item's metadata dict after mutation. -/
def processItem (cfg : StoreConfig) (mt : Bool) (i : Nat) (emb : EmbInput) (cont : PyVal)
    (md : Dict) : Except PyError (Dict × Dict) :=
  match emb with
  | EmbInput.notArray _ =>
    Except.error (PyError.valueError
      ("Embedding at index " ++ toString i ++ " is not a numpy array"))
  | EmbInput.ndarray xs =>
    match cont with
    | PyVal.str s =>
      if s.isEmpty then
        Except.error (PyError.valueError ("Invalid content at index " ++ toString i))
      else
        match deriveTrackId mt md with
        | Except.error e => Except.error e
        | Except.ok tid =>
          Except.ok (buildRecord cfg tid xs s mt (mdWithId tid md), mdWithId tid md)
    | _ => Except.error (PyError.valueError ("Invalid content at index " ++ toString i))

/-- The whole loop, threading the running index.  Returns, per item, the
built record and the item's metadata dict after mutation. -/
def buildRecords (cfg : StoreConfig) (mt : Bool) (mdf : Nat → Dict) :
    Nat → List (EmbInput × PyVal) → Except PyError (List (Dict × Dict))
  | _, [] => Except.ok []
  | i, item :: rest =>
    match processItem cfg mt i item.1 item.2 (mdf i) with
    | Except.error e => Except.error e
    | Except.ok pr =>
      match buildRecords cfg mt mdf (i + 1) rest with
      | Except.error e => Except.error e
      | Except.ok tail => Except.ok (pr :: tail)

/-- Truthiness of the `metadata` argument (`None` and `[]` are falsy). -/
def metaTruthy : Option (List Dict) → Bool
  | Option.none => false
  | Option.some l => !l.isEmpty

/-- `metadata[i]` (never actually indexed out of range by the code). -/
def mdAt (metadata : Option (List Dict)) (i : Nat) : Dict :=
  match metadata with
  | Option.none => []
  | Option.some l => (l.get? i).getD []

/-- The caller-visible state of the `metadata` argument after a successful
call: each entry replaced by its possibly-mutated version. -/
def finalMetadata (metadata : Option (List Dict)) (pairs : List (Dict × Dict)) :
    Option (List Dict) :=
  match metadata with
  | Option.none => Option.none
  | Option.some l => if l.isEmpty then Option.some l else Option.some (pairs.map (fun pr => pr.2))

/-- `SupabaseVectorStore.add_embeddings` (lines 84-171).  The `.ok` result
carries the caller's `metadata` argument as observable after the call; on
error paths the caller-visible metadata post-state (mutations persist when
the call fails later) is modelled by `metadataAfter` below. -/
def add_embeddings (cfg : StoreConfig) (embeddings : List EmbInput) (contents : List PyVal)
    (metadata : Option (List Dict)) (remote : RemoteOutcome) :
    List RemoteCall × Except PyError (Option (List Dict)) :=
  if embeddings.isEmpty then
    ([], Except.error (PyError.valueError "Embeddings list cannot be empty"))
  else if embeddings.length ≠ contents.length then
    ([], Except.error (PyError.valueError
      ("Number of embeddings (" ++ toString embeddings.length ++
        ") must match number of contents (" ++ toString contents.length ++ ")")))
  else if metaTruthy metadata && ((metadata.getD []).length != embeddings.length) then
    ([], Except.error (PyError.valueError
      ("Number of metadata items (" ++ toString (metadata.getD []).length ++
        ") must match number of embeddings (" ++ toString embeddings.length ++ ")")))
  else
    match buildRecords cfg (metaTruthy metadata) (mdAt metadata) 0 (embeddings.zip contents) with
    | Except.error e => ([], Except.error e)
    | Except.ok pairs =>
      match remote with
      | RemoteOutcome.ok _ =>
        ([RemoteCall.insert cfg.table_name (pairs.map (fun pr => pr.1))],
          Except.ok (finalMetadata metadata pairs))
      | RemoteOutcome.errorField p =>
        ([RemoteCall.insert cfg.table_name (pairs.map (fun pr => pr.1))],
          Except.error (PyError.connectionError
            ("Failed to insert records: Supabase insert failed: " ++ p)))
      | RemoteOutcome.raised m =>
        ([RemoteCall.insert cfg.table_name (pairs.map (fun pr => pr.1))],
          Except.error (PyError.connectionError ("Failed to insert records: " ++ m)))

/-- `SupabaseVectorStore.search_similar` (lines 173-237).  The rpc call
goes through `self.client.rpc`, so the configuration is not consulted. -/
def search_similar (_cfg : StoreConfig) (query : EmbInput) (num_results : Int)
    (similarity_threshold : Rat) (remote : RemoteOutcome) :
    List RemoteCall × Except PyError (List Dict) :=
  match query with
  | EmbInput.notArray _ =>
    ([], Except.error (PyError.valueError "query_embedding must be a numpy array"))
  | EmbInput.ndarray xs =>
    if num_results < 1 then
      ([], Except.error (PyError.valueError "num_results must be positive"))
    else if ¬(0 ≤ similarity_threshold ∧ similarity_threshold ≤ 1) then
      ([], Except.error (PyError.valueError "similarity_threshold must be between 0 and 1"))
    else
      match remote with
      | RemoteOutcome.ok data =>
        ([RemoteCall.rpc "match_embeddings" xs similarity_threshold num_results], Except.ok data)
      | RemoteOutcome.errorField p =>
        ([RemoteCall.rpc "match_embeddings" xs similarity_threshold num_results],
          Except.error (PyError.connectionError
            ("Error during similarity search: Supabase similarity search failed: " ++ p)))
      | RemoteOutcome.raised m =>
        ([RemoteCall.rpc "match_embeddings" xs similarity_threshold num_results],
          Except.error (PyError.connectionError ("Error during similarity search: " ++ m)))

/-- `SupabaseVectorStore.delete_embeddings` (lines 239-273).  The
`deleteEq` call carries one equality constraint per filter key, in the
dict's iteration order. -/
def delete_embeddings (cfg : StoreConfig) (filter_dict : Dict) (remote : RemoteOutcome) :
    List RemoteCall × Except PyError Unit :=
  if filter_dict.isEmpty then
    ([], Except.error (PyError.valueError "filter_dict cannot be empty"))
  else
    match remote with
    | RemoteOutcome.ok _ =>
      ([RemoteCall.deleteEq cfg.table_name filter_dict], Except.ok ())
    | RemoteOutcome.errorField p =>
      ([RemoteCall.deleteEq cfg.table_name filter_dict],
        Except.error (PyError.connectionError
          ("Error during delete operation: Supabase delete failed: " ++ p)))
    | RemoteOutcome.raised m =>
      ([RemoteCall.deleteEq cfg.table_name filter_dict],
        Except.error (PyError.connectionError ("Error during delete operation: " ++ m)))

/-- Per-item validity exactly as checked by lines 115-119. -/
def itemValid (pr : EmbInput × PyVal) : Bool :=
  isNd pr.1 && contentOk pr.2

/-- The `title` and `artist` values of a metadata dict (when present) are
strings, so `.lower()` cannot raise. -/
def mdWellTyped (md : Dict) : Bool :=
  (match dictLookup md "title" with
   | Option.some (PyVal.str _) => true
   | Option.none => true
   | _ => false) &&
  (match dictLookup md "artist" with
   | Option.some (PyVal.str _) => true
   | Option.none => true
   | _ => false)

/-- The malformation conditions enumerated by the spec for `append`. -/
def inputMalformed (embeddings : List EmbInput) (contents : List PyVal)
    (metadata : Option (List Dict)) : Bool :=
  embeddings.isEmpty || (embeddings.length != contents.length) ||
  (metaTruthy metadata && ((metadata.getD []).length != embeddings.length)) ||
  embeddings.any (fun x => !isNd x) || contents.any (fun x => !contentOk x)

/-- Starting-character shape check: a nonempty list must not start with an
underscore. -/
def noLeadUS : List Char → Bool
  | [] => true
  | c :: _ => c ≠ '_'

/-- No trailing underscore. -/
def noTrailUS (cs : List Char) : Bool := noLeadUS cs.reverse

/-- No two adjacent underscores. -/
def noDoubleUS : List Char → Bool
  | [] => true
  | [_] => true
  | a :: b :: rest => (!(a = '_' && b = '_')) && noDoubleUS (b :: rest)

/-- The exact validation message raised by the loop at the offending item:
the embedding check at line 115 runs before the content check at line 118,
and both name the index. -/
def itemErrMsg (i : Nat) (it : EmbInput × PyVal) : String :=
  if isNd it.1 then "Invalid content at index " ++ toString i
  else "Embedding at index " ++ toString i ++ " is not a numpy array"

/-- The caller's metadata list as the loop leaves it: entries are replaced
by their mutated versions (line 134) up to the first failing item; the
failing item's entry and everything after it are untouched, because the
`metadata[i]['id'] = track_id` assignment only happens on the success path
of the derivation, before the record is appended. -/
def mutateMetadata (cfg : StoreConfig) (mt : Bool) :
    Nat → List (EmbInput × PyVal) → List Dict → List Dict
  | _, _, [] => []
  | _, [], mds => mds
  | i, item :: rest, md0 :: mds =>
    match processItem cfg mt i item.1 item.2 md0 with
    | Except.error _ => md0 :: mds
    | Except.ok pr => pr.2 :: mutateMetadata cfg mt (i + 1) rest mds

/-- The caller-visible state of the `metadata` argument after the call,
for every outcome: the pre-loop validations (lines 102-109) raise before
any entry is touched; the loop mutates entries up to its first failure;
and the remote insert happens only after the loop, so a failed insert
cannot undo any mutation — the remote outcome therefore does not appear
here at all. -/
def metadataAfter (cfg : StoreConfig) (embeddings : List EmbInput) (contents : List PyVal)
    (metadata : Option (List Dict)) : Option (List Dict) :=
  if embeddings.isEmpty then metadata
  else if embeddings.length ≠ contents.length then metadata
  else if metaTruthy metadata && ((metadata.getD []).length != embeddings.length) then metadata
  else
    match metadata with
    | Option.none => Option.none
    | Option.some ml =>
      Option.some (mutateMetadata cfg (metaTruthy metadata) 0 (embeddings.zip contents) ml)

theorem dictLookup_dictSet_self (d : Dict) (k : String) (v : PyVal) :
    dictLookup (dictSet d k v) k = Option.some v := by
  induction d with
  | nil => simp [dictSet, dictLookup]
  | cons hd tl ih =>
    obtain ⟨k', v'⟩ := hd
    by_cases h : k' = k
    · simp [dictSet, h, dictLookup]
    · simp [dictSet, h, dictLookup, ih]

theorem dictLookup_dictSet_ne (d : Dict) (k k' : String) (v : PyVal) (h : k' ≠ k) :
    dictLookup (dictSet d k v) k' = dictLookup d k' := by
  have hne : k ≠ k' := fun hh => h hh.symm
  induction d with
  | nil => simp [dictSet, dictLookup, hne]
  | cons hd tl ih =>
    obtain ⟨k0, v0⟩ := hd
    by_cases h0 : k0 = k
    · subst h0
      simp [dictSet, dictLookup, hne]
    · simp [dictSet, h0, dictLookup, ih]

theorem dictLookup_addMetaCols_notMem (cols : List String) (md r : Dict) (k : String)
    (h : k ∉ cols) :
    dictLookup (addMetaCols cols md r) k = dictLookup r k := by
  induction cols generalizing r with
  | nil => rfl
  | cons c cs ih =>
    have hk : k ≠ c := fun hh => h (hh ▸ List.mem_cons_self c cs)
    have hcs : k ∉ cs := fun hh => h (List.mem_cons_of_mem c hh)
    cases hv : dictLookup md c with
    | none => simpa [addMetaCols, hv] using ih r hcs
    | some v =>
      have := ih (dictSet r c v) hcs
      simpa [addMetaCols, hv, dictLookup_dictSet_ne r c k v hk] using this

theorem dictLookup_addMetaCols_none (cols : List String) (md r : Dict) (k : String)
    (h : dictLookup md k = Option.none) :
    dictLookup (addMetaCols cols md r) k = dictLookup r k := by
  induction cols generalizing r with
  | nil => rfl
  | cons c cs ih =>
    cases hv : dictLookup md c with
    | none => simpa [addMetaCols, hv] using ih r
    | some v =>
      have hk : k ≠ c := by
        intro hh
        subst hh
        rw [h] at hv
        exact Option.noConfusion hv
      have := ih (dictSet r c v)
      simpa [addMetaCols, hv, dictLookup_dictSet_ne r c k v hk] using this

theorem dictLookup_addMetaCols_mem (cols : List String) (md r : Dict) (k : String) (v : PyVal)
    (h : k ∈ cols) (hv : dictLookup md k = Option.some v) :
    dictLookup (addMetaCols cols md r) k = Option.some v := by
  induction cols generalizing r with
  | nil => exact absurd h (List.not_mem_nil k)
  | cons c cs ih =>
    by_cases hcs : k ∈ cs
    · cases hw : dictLookup md c with
      | none => simpa [addMetaCols, hw] using ih (r := r) hcs
      | some w => simpa [addMetaCols, hw] using ih (r := dictSet r c w) hcs
    · have hkc : k = c := by
        rcases List.mem_cons.mp h with h1 | h2
        · exact h1
        · exact absurd h2 hcs
      subst hkc
      have hstep : addMetaCols (k :: cs) md r = addMetaCols cs md (dictSet r k v) := by
        simp [addMetaCols, List.foldl_cons, hv]
      rw [hstep, dictLookup_addMetaCols_notMem cs md (dictSet r k v) k hcs,
        dictLookup_dictSet_self]

theorem buildRecord_lookup_emb (cfg : StoreConfig) (tid : Option String) (xs : List Int)
    (s : String) (mt : Bool) (md : Dict)
    (h1 : cfg.embedding_column ≠ cfg.content_column)
    (h2 : cfg.embedding_column ∉ cfg.metadata_columns) :
    dictLookup (buildRecord cfg tid xs s mt md) cfg.embedding_column
      = Option.some (PyVal.arr (xs.map PyVal.int)) := by
  unfold buildRecord
  have hbase : dictLookup (dictSet (dictSet (dictSet [] "id" (idVal tid))
      cfg.embedding_column (PyVal.arr (xs.map PyVal.int))) cfg.content_column (PyVal.str s))
      cfg.embedding_column = Option.some (PyVal.arr (xs.map PyVal.int)) := by
    rw [dictLookup_dictSet_ne _ _ _ _ h1, dictLookup_dictSet_self]
  cases mt with
  | false => simpa using hbase
  | true => simpa [dictLookup_addMetaCols_notMem _ md _ _ h2] using hbase

theorem buildRecord_lookup_content (cfg : StoreConfig) (tid : Option String) (xs : List Int)
    (s : String) (mt : Bool) (md : Dict)
    (h : cfg.content_column ∉ cfg.metadata_columns) :
    dictLookup (buildRecord cfg tid xs s mt md) cfg.content_column
      = Option.some (PyVal.str s) := by
  unfold buildRecord
  have hbase : dictLookup (dictSet (dictSet (dictSet [] "id" (idVal tid))
      cfg.embedding_column (PyVal.arr (xs.map PyVal.int))) cfg.content_column (PyVal.str s))
      cfg.content_column = Option.some (PyVal.str s) := dictLookup_dictSet_self _ _ _
  cases mt with
  | false => simpa using hbase
  | true => simpa [dictLookup_addMetaCols_notMem _ md _ _ h] using hbase

theorem buildRecord_lookup_id (cfg : StoreConfig) (tid : Option String) (xs : List Int)
    (s : String) (mt : Bool) (md : Dict)
    (h1 : cfg.embedding_column ≠ "id") (h2 : cfg.content_column ≠ "id")
    (h3 : "id" ∉ cfg.metadata_columns) :
    dictLookup (buildRecord cfg tid xs s mt md) "id" = Option.some (idVal tid) := by
  unfold buildRecord
  have hbase : dictLookup (dictSet (dictSet (dictSet [] "id" (idVal tid))
      cfg.embedding_column (PyVal.arr (xs.map PyVal.int))) cfg.content_column (PyVal.str s))
      "id" = Option.some (idVal tid) := by
    rw [dictLookup_dictSet_ne _ _ _ _ (Ne.symm h2),
      dictLookup_dictSet_ne _ _ _ _ (Ne.symm h1)]
    exact dictLookup_dictSet_self _ _ _
  cases mt with
  | false => simpa using hbase
  | true => simpa [dictLookup_addMetaCols_notMem _ md _ _ h3] using hbase

theorem buildRecord_lookup_meta (cfg : StoreConfig) (tid : Option String) (xs : List Int)
    (s : String) (md : Dict) (k : String) (v : PyVal)
    (hk : k ∈ cfg.metadata_columns) (hv : dictLookup md k = Option.some v) :
    dictLookup (buildRecord cfg tid xs s true md) k = Option.some v := by
  unfold buildRecord
  simpa using dictLookup_addMetaCols_mem cfg.metadata_columns md _ k v hk hv

theorem buildRecord_lookup_other (cfg : StoreConfig) (tid : Option String) (xs : List Int)
    (s : String) (mt : Bool) (md : Dict) (k : String)
    (h1 : k ≠ "id") (h2 : k ≠ cfg.embedding_column) (h3 : k ≠ cfg.content_column)
    (h4 : mt = false ∨ k ∉ cfg.metadata_columns ∨ dictLookup md k = Option.none) :
    dictLookup (buildRecord cfg tid xs s mt md) k = Option.none := by
  unfold buildRecord
  have hbase : dictLookup (dictSet (dictSet (dictSet [] "id" (idVal tid))
      cfg.embedding_column (PyVal.arr (xs.map PyVal.int))) cfg.content_column (PyVal.str s))
      k = Option.none := by
    rw [dictLookup_dictSet_ne _ _ _ _ h3, dictLookup_dictSet_ne _ _ _ _ h2,
      dictLookup_dictSet_ne _ _ _ _ h1]
    rfl
  cases mt with
  | false => simpa using hbase
  | true =>
    rcases h4 with h4 | h4 | h4
    · exact absurd h4 (by simp)
    · simpa [dictLookup_addMetaCols_notMem _ md _ _ h4] using hbase
    · simpa [dictLookup_addMetaCols_none _ md _ _ h4] using hbase

theorem deriveTrackId_ok_of_wellTyped (mt : Bool) (md : Dict) (hwt : mdWellTyped md = true) :
    ∃ o, deriveTrackId mt md = Except.ok o := by
  have htitle : ∃ t, pyLower (dictGet md "title" (PyVal.str "")) = Except.ok t := by
    unfold mdWellTyped at hwt
    cases hft : dictLookup md "title" with
    | none => exact ⟨strLower "", by simp [dictGet, hft, pyLower]⟩
    | some v =>
      cases v with
      | str s => exact ⟨strLower s, by simp [dictGet, hft, pyLower]⟩
      | none => rw [hft] at hwt; simp at hwt
      | int n => rw [hft] at hwt; simp at hwt
      | arr xs => rw [hft] at hwt; simp at hwt
  have hartist : ∃ a, pyLower (dictGet md "artist" (PyVal.str "")) = Except.ok a := by
    unfold mdWellTyped at hwt
    cases hfa : dictLookup md "artist" with
    | none => exact ⟨strLower "", by simp [dictGet, hfa, pyLower]⟩
    | some v =>
      cases v with
      | str s => exact ⟨strLower s, by simp [dictGet, hfa, pyLower]⟩
      | none => rw [hfa] at hwt; simp at hwt
      | int n => rw [hfa] at hwt; simp at hwt
      | arr xs => rw [hfa] at hwt; simp at hwt
  obtain ⟨t, ht⟩ := htitle
  obtain ⟨a, ha⟩ := hartist
  unfold deriveTrackId
  cases hc : (mt && !md.isEmpty) with
  | false => exact ⟨Option.none, by simp⟩
  | true =>
    rw [ht, ha]
    simp only [if_true]
    by_cases hb : (!t.isEmpty && !a.isEmpty) = true
    · exact ⟨Option.some (derive_core t a), by rw [if_pos hb]⟩
    · exact ⟨Option.none, by rw [if_neg hb]⟩

theorem processItem_ok_inv (cfg : StoreConfig) (mt : Bool) (i : Nat) (emb : EmbInput)
    (cont : PyVal) (md : Dict) (pr : Dict × Dict)
    (h : processItem cfg mt i emb cont md = Except.ok pr) :
    ∃ xs s tid, emb = EmbInput.ndarray xs ∧ cont = PyVal.str s ∧ s.isEmpty = false ∧
      deriveTrackId mt md = Except.ok tid ∧
      pr = (buildRecord cfg tid xs s mt (mdWithId tid md), mdWithId tid md) := by
  cases emb with
  | notArray v => simp [processItem] at h
  | ndarray xs =>
    cases cont with
    | str s =>
      cases hs : s.isEmpty with
      | true => simp [processItem, hs] at h
      | false =>
        cases hd : deriveTrackId mt md with
        | error e => simp [processItem, hs, hd] at h
        | ok tid =>
          refine ⟨xs, s, tid, rfl, rfl, hs, rfl, ?_⟩
          simp [processItem, hs, hd] at h
          exact h.symm
    | none => simp [processItem] at h
    | int n => simp [processItem] at h
    | arr a => simp [processItem] at h

theorem processItem_err_of_invalid (cfg : StoreConfig) (mt : Bool) (i : Nat) (emb : EmbInput)
    (cont : PyVal) (md : Dict) (hv : itemValid (emb, cont) = false) :
    ∃ m, processItem cfg mt i emb cont md = Except.error (PyError.valueError m) := by
  cases emb with
  | notArray v => exact ⟨_, rfl⟩
  | ndarray xs =>
    cases cont with
    | str s =>
      have hs : s.isEmpty = true := by
        simpa [itemValid, isNd, contentOk] using hv
      refine ⟨"Invalid content at index " ++ toString i, ?_⟩
      simp [processItem, hs]
    | none => exact ⟨_, rfl⟩
    | int n => exact ⟨_, rfl⟩
    | arr a => exact ⟨_, rfl⟩

theorem processItem_ok_of_valid (cfg : StoreConfig) (mt : Bool) (i : Nat) (emb : EmbInput)
    (cont : PyVal) (md : Dict) (hwt : mdWellTyped md = true)
    (hv : itemValid (emb, cont) = true) :
    ∃ pr, processItem cfg mt i emb cont md = Except.ok pr := by
  cases emb with
  | notArray v => simp [itemValid, isNd] at hv
  | ndarray xs =>
    cases cont with
    | str s =>
      have hs : s.isEmpty = false := by
        simpa [itemValid, isNd, contentOk] using hv
      obtain ⟨tid, hd⟩ := deriveTrackId_ok_of_wellTyped mt md hwt
      refine ⟨(buildRecord cfg tid xs s mt (mdWithId tid md), mdWithId tid md), ?_⟩
      simp [processItem, hs, hd]
    | none => simp [itemValid, contentOk] at hv
    | int n => simp [itemValid, contentOk] at hv
    | arr a => simp [itemValid, contentOk] at hv

theorem buildRecords_ok_inv (cfg : StoreConfig) (mt : Bool) (mdf : Nat → Dict)
    (items : List (EmbInput × PyVal)) (i0 : Nat) (pairs : List (Dict × Dict))
    (h : buildRecords cfg mt mdf i0 items = Except.ok pairs) :
    pairs.length = items.length ∧
    ∀ j it, items.get? j = Option.some it →
      ∃ pr, pairs.get? j = Option.some pr ∧
        processItem cfg mt (i0 + j) it.1 it.2 (mdf (i0 + j)) = Except.ok pr := by
  induction items generalizing i0 pairs with
  | nil =>
    simp only [buildRecords] at h
    obtain rfl : pairs = [] := by
      cases h
      rfl
    exact ⟨rfl, by intro j it hj; simp at hj⟩
  | cons it rest ih =>
    cases hp : processItem cfg mt i0 it.1 it.2 (mdf i0) with
    | error e =>
      simp only [buildRecords, hp] at h
      exact Except.noConfusion h
    | ok pr =>
      cases hr : buildRecords cfg mt mdf (i0 + 1) rest with
      | error e =>
        simp only [buildRecords, hp, hr] at h
        exact Except.noConfusion h
      | ok tail =>
        simp only [buildRecords, hp, hr] at h
        obtain rfl : pairs = pr :: tail := by
          cases h
          rfl
        obtain ⟨hl, hg⟩ := ih (i0 + 1) tail hr
        refine ⟨by simp [hl], ?_⟩
        intro j itj hj
        cases j with
        | zero =>
          obtain rfl : it = itj := by
            simpa using hj
          exact ⟨pr, by simp, by simpa using hp⟩
        | succ j' =>
          have hj' : rest.get? j' = Option.some itj := by simpa using hj
          obtain ⟨pr', h1, h2⟩ := hg j' itj hj'
          refine ⟨pr', by simpa using h1, ?_⟩
          have harith : i0 + (j' + 1) = i0 + 1 + j' := by omega
          rw [harith]
          exact h2

theorem buildRecords_ok_of_valid (cfg : StoreConfig) (mt : Bool) (mdf : Nat → Dict)
    (items : List (EmbInput × PyVal)) (i0 : Nat)
    (hwt : ∀ j, mdWellTyped (mdf j) = true)
    (hv : ∀ it ∈ items, itemValid it = true) :
    ∃ pairs, buildRecords cfg mt mdf i0 items = Except.ok pairs := by
  induction items generalizing i0 with
  | nil => exact ⟨[], rfl⟩
  | cons it rest ih =>
    have hvit : itemValid (it.1, it.2) = true := by
      simpa using hv it (List.mem_cons_self it rest)
    obtain ⟨pr, hp⟩ := processItem_ok_of_valid cfg mt i0 it.1 it.2 (mdf i0) (hwt i0) hvit
    obtain ⟨tail, hr⟩ := ih (i0 + 1) (fun x hx => hv x (List.mem_cons_of_mem it hx))
    exact ⟨pr :: tail, by simp only [buildRecords, hp, hr]⟩

theorem buildRecords_err_of_invalid (cfg : StoreConfig) (mt : Bool) (mdf : Nat → Dict)
    (items : List (EmbInput × PyVal)) (i0 : Nat)
    (hwt : ∀ j, mdWellTyped (mdf j) = true)
    (hv : ∃ it ∈ items, itemValid it = false) :
    ∃ m, buildRecords cfg mt mdf i0 items = Except.error (PyError.valueError m) := by
  induction items generalizing i0 with
  | nil => simp at hv
  | cons it rest ih =>
    cases hit : itemValid it with
    | false =>
      obtain ⟨m, hp⟩ := processItem_err_of_invalid cfg mt i0 it.1 it.2 (mdf i0)
        (by simpa using hit)
      exact ⟨m, by simp only [buildRecords, hp]⟩
    | true =>
      have hrest : ∃ x ∈ rest, itemValid x = false := by
        obtain ⟨x, hx, hxv⟩ := hv
        rcases List.mem_cons.mp hx with rfl | hx'
        · rw [hit] at hxv
          exact absurd hxv (by simp)
        · exact ⟨x, hx', hxv⟩
      obtain ⟨pr, hp⟩ := processItem_ok_of_valid cfg mt i0 it.1 it.2 (mdf i0) (hwt i0)
        (by simpa using hit)
      obtain ⟨m, hr⟩ := ih (i0 + 1) hrest
      exact ⟨m, by simp only [buildRecords, hp, hr]⟩

theorem add_embeddings_run (cfg : StoreConfig) (e : List EmbInput) (c : List PyVal)
    (md : Option (List Dict)) (r : RemoteOutcome) (pairs : List (Dict × Dict))
    (h1 : e.isEmpty = false) (h2 : e.length = c.length)
    (h3 : (metaTruthy md && ((md.getD []).length != e.length)) = false)
    (hb : buildRecords cfg (metaTruthy md) (mdAt md) 0 (e.zip c) = Except.ok pairs) :
    add_embeddings cfg e c md r =
      ([RemoteCall.insert cfg.table_name (pairs.map (fun pr => pr.1))],
        match r with
        | RemoteOutcome.ok _ => Except.ok (finalMetadata md pairs)
        | RemoteOutcome.errorField p =>
          Except.error (PyError.connectionError
            ("Failed to insert records: Supabase insert failed: " ++ p))
        | RemoteOutcome.raised m =>
          Except.error (PyError.connectionError ("Failed to insert records: " ++ m))) := by
  have h2' : ¬e.length ≠ c.length := by omega
  unfold add_embeddings
  rw [if_neg (by simp [h1]), if_neg h2', if_neg (by simp [h3]), hb]
  cases r <;> rfl

theorem add_embeddings_trace_inv (cfg : StoreConfig) (e : List EmbInput) (c : List PyVal)
    (md : Option (List Dict)) (r : RemoteOutcome) (tn : String) (rs : List Dict)
    (h : (add_embeddings cfg e c md r).1 = [RemoteCall.insert tn rs]) :
    ∃ pairs, buildRecords cfg (metaTruthy md) (mdAt md) 0 (e.zip c) = Except.ok pairs ∧
      rs = pairs.map (fun pr => pr.1) ∧ tn = cfg.table_name ∧
      e.isEmpty = false ∧ e.length = c.length ∧
      (metaTruthy md && ((md.getD []).length != e.length)) = false := by
  unfold add_embeddings at h
  by_cases h1 : e.isEmpty = true
  · rw [if_pos h1] at h
    simp at h
  rw [if_neg h1] at h
  by_cases h2 : e.length ≠ c.length
  · rw [if_pos h2] at h
    simp at h
  rw [if_neg h2] at h
  by_cases h3 : (metaTruthy md && ((md.getD []).length != e.length)) = true
  · rw [if_pos h3] at h
    simp at h
  rw [if_neg h3] at h
  cases hb : buildRecords cfg (metaTruthy md) (mdAt md) 0 (e.zip c) with
  | error e' =>
    rw [hb] at h
    simp at h
  | ok pairs =>
    rw [hb] at h
    have hlist : [RemoteCall.insert cfg.table_name (pairs.map (fun pr => pr.1))]
        = [RemoteCall.insert tn rs] := by
      cases r with
      | ok d => simpa using h
      | errorField p => simpa using h
      | raised m => simpa using h
    have hinj := List.cons.injEq .. ▸ hlist
    simp only [List.cons.injEq, RemoteCall.insert.injEq, and_true] at hinj
    exact ⟨pairs, rfl, hinj.2.symm, hinj.1.symm, by simpa using h1, by omega,
      by simpa using h3⟩

theorem add_embeddings_ok_inv (cfg : StoreConfig) (e : List EmbInput) (c : List PyVal)
    (md : Option (List Dict)) (r : RemoteOutcome) (out : Option (List Dict))
    (h : (add_embeddings cfg e c md r).2 = Except.ok out) :
    ∃ pairs data, buildRecords cfg (metaTruthy md) (mdAt md) 0 (e.zip c) = Except.ok pairs ∧
      out = finalMetadata md pairs ∧ r = RemoteOutcome.ok data ∧
      e.isEmpty = false ∧ e.length = c.length ∧
      (metaTruthy md && ((md.getD []).length != e.length)) = false := by
  unfold add_embeddings at h
  by_cases h1 : e.isEmpty = true
  · rw [if_pos h1] at h
    simp at h
  rw [if_neg h1] at h
  by_cases h2 : e.length ≠ c.length
  · rw [if_pos h2] at h
    simp at h
  rw [if_neg h2] at h
  by_cases h3 : (metaTruthy md && ((md.getD []).length != e.length)) = true
  · rw [if_pos h3] at h
    simp at h
  rw [if_neg h3] at h
  cases hb : buildRecords cfg (metaTruthy md) (mdAt md) 0 (e.zip c) with
  | error e' =>
    rw [hb] at h
    simp at h
  | ok pairs =>
    rw [hb] at h
    cases r with
    | ok d =>
      simp only at h
      have hout : out = finalMetadata md pairs := by
        cases h
        rfl
      exact ⟨pairs, d, rfl, hout, rfl, by simpa using h1, by omega, by simpa using h3⟩
    | errorField p =>
      simp at h
    | raised m =>
      simp at h

theorem mdAt_wellTyped (md : Option (List Dict))
    (hwt : ∀ d ∈ md.getD [], mdWellTyped d = true) :
    ∀ j, mdWellTyped (mdAt md j) = true := by
  intro j
  cases md with
  | none => rfl
  | some l =>
    have hmd : mdAt (Option.some l) j = (l.get? j).getD [] := rfl
    cases hg : l.get? j with
    | none =>
      rw [hmd, hg]
      rfl
    | some d =>
      rw [hmd, hg]
      have hd : d ∈ l := List.get?_mem hg
      exact hwt d (by simpa using hd)

theorem malformed_items_iff (e : List EmbInput) (c : List PyVal) (h : e.length = c.length) :
    ((e.any (fun x => !isNd x) || c.any (fun x => !contentOk x)) = true) ↔
    ∃ it ∈ e.zip c, itemValid it = false := by
  induction e generalizing c with
  | nil =>
    cases c with
    | nil => simp
    | cons _ _ => simp at h
  | cons x xs ih =>
    cases c with
    | nil => simp at h
    | cons y ys =>
      have hlen : xs.length = ys.length := by simpa using h
      constructor
      · intro hany
        by_cases hx : itemValid (x, y) = false
        · exact ⟨(x, y), by simp, hx⟩
        · have hx2 : itemValid (x, y) = true := by
            cases hxx : itemValid (x, y) with
            | false => exact absurd hxx hx
            | true => rfl
          have hx' : isNd x = true ∧ contentOk y = true := by
            simpa [itemValid] using hx2
          have hrest : (xs.any (fun x => !isNd x) || ys.any (fun x => !contentOk x)) = true := by
            simp only [List.any_cons, hx'.1, hx'.2] at hany
            simpa using hany
          obtain ⟨it, hmem, hbad⟩ := (ih ys hlen).mp hrest
          exact ⟨it, List.mem_cons_of_mem _ hmem, hbad⟩
      · rintro ⟨it, hmem, hbad⟩
        rcases List.mem_cons.mp hmem with rfl | hmem'
        · have hh : isNd x = false ∨ contentOk y = false := by
            cases hnd : isNd x with
            | false => exact Or.inl rfl
            | true =>
              cases hco : contentOk y with
              | false => exact Or.inr rfl
              | true =>
                rw [show itemValid (x, y) = true by simp [itemValid, hnd, hco]] at hbad
                exact Bool.noConfusion hbad
          rcases hh with hh | hh
          · simp [List.any_cons, hh]
          · simp [List.any_cons, hh]
        · have hrest := (ih ys hlen).mpr ⟨it, hmem', hbad⟩
          rcases Bool.or_eq_true_iff.mp hrest with hh | hh
          · simp [List.any_cons, hh]
          · simp [List.any_cons, hh]

theorem toNat_ofNatAux (n : Nat) (h : n.isValidChar) : (Char.ofNatAux n h).toNat = n := by
  unfold Char.ofNatAux Char.toNat UInt32.toNat
  simp

theorem toNat_lowerChar_shift (c : Char) (h : 65 ≤ c.toNat ∧ c.toNat ≤ 90) :
    (lowerChar c).toNat = c.toNat + 32 := by
  have hv : (c.toNat + 32).isValidChar := Or.inl (by omega)
  unfold lowerChar
  rw [if_pos h, Char.ofNat, dif_pos hv, toNat_ofNatAux]

theorem lowerChar_idem (c : Char) : lowerChar (lowerChar c) = lowerChar c := by
  have hrw : ∀ d : Char,
      lowerChar d = if 65 ≤ d.toNat ∧ d.toNat ≤ 90 then Char.ofNat (d.toNat + 32) else d :=
    fun d => rfl
  by_cases h : 65 ≤ c.toNat ∧ c.toNat ≤ 90
  · have hs := toNat_lowerChar_shift c h
    have hcond : ¬(65 ≤ (lowerChar c).toNat ∧ (lowerChar c).toNat ≤ 90) := by omega
    rw [hrw (lowerChar c), if_neg hcond]
  · have heq : lowerChar c = c := by
      rw [hrw c, if_neg h]
    rw [heq]
    exact heq

theorem splitUS_ne_nil (cs : List Char) : splitUS cs ≠ [] := by
  cases cs with
  | nil => simp [splitUS]
  | cons c rest =>
    by_cases hc : c = '_'
    · simp [splitUS, hc]
    · cases hsp : splitUS rest with
      | nil => simp [splitUS, hc, hsp]
      | cons p ps => simp [splitUS, hc, hsp]

theorem no_us_of_mem_splitUS (cs : List Char) (p : List Char) (hp : p ∈ splitUS cs) :
    '_' ∉ p := by
  induction cs generalizing p with
  | nil =>
    simp [splitUS] at hp
    subst hp
    simp
  | cons c rest ih =>
    by_cases hc : c = '_'
    · have hsp : splitUS (c :: rest) = [] :: splitUS rest := by simp [splitUS, hc]
      rw [hsp] at hp
      rcases List.mem_cons.mp hp with rfl | hp'
      · simp
      · exact ih p hp'
    · cases hrec : splitUS rest with
      | nil => exact absurd hrec (splitUS_ne_nil rest)
      | cons q qs =>
        have hsp : splitUS (c :: rest) = (c :: q) :: qs := by simp [splitUS, hc, hrec]
        rw [hsp] at hp
        rcases List.mem_cons.mp hp with rfl | hp'
        · intro hmem
          rcases List.mem_cons.mp hmem with h1 | h1
          · exact hc h1.symm
          · exact ih q (by rw [hrec]; exact List.mem_cons_self q qs) h1
        · exact ih p (by rw [hrec]; exact List.mem_cons_of_mem q hp')

theorem mem_of_mem_splitUS (cs : List Char) (p : List Char) (c : Char)
    (hp : p ∈ splitUS cs) (hc : c ∈ p) : c ∈ cs := by
  induction cs generalizing p with
  | nil =>
    simp [splitUS] at hp
    subst hp
    simp at hc
  | cons a rest ih =>
    by_cases ha : a = '_'
    · have hsp : splitUS (a :: rest) = [] :: splitUS rest := by simp [splitUS, ha]
      rw [hsp] at hp
      rcases List.mem_cons.mp hp with rfl | hp'
      · simp at hc
      · exact List.mem_cons_of_mem a (ih p hp' hc)
    · cases hrec : splitUS rest with
      | nil => exact absurd hrec (splitUS_ne_nil rest)
      | cons q qs =>
        have hsp : splitUS (a :: rest) = (a :: q) :: qs := by simp [splitUS, ha, hrec]
        rw [hsp] at hp
        rcases List.mem_cons.mp hp with rfl | hp'
        · rcases List.mem_cons.mp hc with rfl | hc'
          · exact List.mem_cons_self c rest
          · exact List.mem_cons_of_mem a
              (ih q (by rw [hrec]; exact List.mem_cons_self q qs) hc')
        · exact List.mem_cons_of_mem a
            (ih p (by rw [hrec]; exact List.mem_cons_of_mem q hp') hc)

theorem mem_joinUS (ps : List (List Char)) (c : Char) (hc : c ∈ joinUS ps) :
    c = '_' ∨ ∃ p ∈ ps, c ∈ p := by
  induction ps with
  | nil => simp [joinUS] at hc
  | cons p ps ih =>
    cases ps with
    | nil =>
      simp only [joinUS] at hc
      exact Or.inr ⟨p, by simp, hc⟩
    | cons q qs =>
      rw [show joinUS (p :: q :: qs) = p ++ '_' :: joinUS (q :: qs) from rfl] at hc
      rcases List.mem_append.mp hc with h1 | h1
      · exact Or.inr ⟨p, by simp, h1⟩
      · rcases List.mem_cons.mp h1 with rfl | h2
        · exact Or.inl rfl
        · rcases ih h2 with h3 | ⟨r, hr, hcr⟩
          · exact Or.inl h3
          · exact Or.inr ⟨r, List.mem_cons_of_mem p hr, hcr⟩

theorem joinUS_ne_nil (ps : List (List Char)) (h0 : ps ≠ []) (h1 : ∀ p ∈ ps, p ≠ []) :
    joinUS ps ≠ [] := by
  cases ps with
  | nil => exact absurd rfl h0
  | cons p qs =>
    cases qs with
    | nil => simpa [joinUS] using h1 p (by simp)
    | cons q rs =>
      rw [show joinUS (p :: q :: rs) = p ++ '_' :: joinUS (q :: rs) from rfl]
      simp

theorem noDoubleUS_of_no_us (cs : List Char) (h : '_' ∉ cs) : noDoubleUS cs = true := by
  induction cs with
  | nil => rfl
  | cons a rest ih =>
    cases rest with
    | nil => rfl
    | cons b rs =>
      have ha : ¬(a = '_') := fun hh => h (by rw [hh]; exact List.mem_cons_self '_' _)
      have hrest : '_' ∉ b :: rs := fun hh => h (List.mem_cons_of_mem a hh)
      have hd := ih hrest
      simp [noDoubleUS, ha, hd]

theorem noDoubleUS_append (p tail : List Char) (hp : '_' ∉ p) (ht : noDoubleUS tail = true) :
    noDoubleUS (p ++ tail) = true := by
  induction p with
  | nil => simpa using ht
  | cons a rest ih =>
    have ha : ¬(a = '_') := fun hh => hp (by rw [hh]; exact List.mem_cons_self '_' _)
    have hrest : '_' ∉ rest := fun hh => hp (List.mem_cons_of_mem a hh)
    cases hre : rest with
    | nil =>
      cases tail with
      | nil => simp [noDoubleUS]
      | cons t ts => simpa [noDoubleUS, ha] using ht
    | cons b bs =>
      have hind := ih hrest
      rw [hre] at hind
      simpa [noDoubleUS, ha] using hind

theorem noLeadUS_append (x y : List Char) (hx : x ≠ []) :
    noLeadUS (x ++ y) = noLeadUS x := by
  cases x with
  | nil => exact absurd rfl hx
  | cons a rest => rfl

theorem joinUS_shape (ps : List (List Char)) (h : ∀ p ∈ ps, p ≠ [] ∧ '_' ∉ p) :
    noLeadUS (joinUS ps) = true ∧ noTrailUS (joinUS ps) = true ∧
    noDoubleUS (joinUS ps) = true := by
  induction ps with
  | nil => exact ⟨rfl, rfl, rfl⟩
  | cons p qs ih =>
    obtain ⟨hpne, hpus⟩ := h p (List.mem_cons_self p qs)
    cases qs with
    | nil =>
      refine ⟨?_, ?_, ?_⟩
      · cases p with
        | nil => exact absurd rfl hpne
        | cons a r =>
          have ha : ¬(a = '_') := fun hh => hpus (by rw [hh]; exact List.mem_cons_self '_' _)
          simp [joinUS, noLeadUS, ha]
      · cases hrev : p.reverse with
        | nil => exact absurd (by simpa using hrev) hpne
        | cons a r =>
          have hmem : a ∈ p := by
            have h2 : a ∈ p.reverse := by
              rw [hrev]
              exact List.mem_cons_self a r
            simpa using h2
          have ha : ¬(a = '_') := fun hh => hpus (by rw [← hh]; exact hmem)
          simp [joinUS, noTrailUS, hrev, noLeadUS, ha]
      · simpa [joinUS] using noDoubleUS_of_no_us p hpus
    | cons q rs =>
      obtain ⟨hlead, htrail, hdouble⟩ := ih (fun x hx => h x (List.mem_cons_of_mem p hx))
      have hJne : joinUS (q :: rs) ≠ [] :=
        joinUS_ne_nil (q :: rs) (by simp) (fun x hx => (h x (List.mem_cons_of_mem p hx)).1)
      have hjoin : joinUS (p :: q :: rs) = p ++ '_' :: joinUS (q :: rs) := rfl
      refine ⟨?_, ?_, ?_⟩
      · rw [hjoin, noLeadUS_append p _ hpne]
        cases p with
        | nil => exact absurd rfl hpne
        | cons a r =>
          have ha : ¬(a = '_') := fun hh => hpus (by rw [hh]; exact List.mem_cons_self '_' _)
          simp [noLeadUS, ha]
      · rw [hjoin]
        unfold noTrailUS
        rw [List.reverse_append, List.reverse_cons, List.append_assoc]
        have hrevne : (joinUS (q :: rs)).reverse ≠ [] := by simpa using hJne
        rw [noLeadUS_append _ _ hrevne]
        exact htrail
      · rw [hjoin]
        refine noDoubleUS_append p _ hpus ?_
        cases hJ : joinUS (q :: rs) with
        | nil => exact absurd hJ hJne
        | cons a r =>
          have hlead' : noLeadUS (a :: r) = true := by
            rw [← hJ]
            exact hlead
          have ha : ¬(a = '_') := by simpa [noLeadUS] using hlead'
          have hd : noDoubleUS (a :: r) = true := by
            rw [← hJ]
            exact hdouble
          simp [noDoubleUS, ha, hd]

theorem mem_sanitize_lower (s : String) (c : Char)
    (hc : c ∈ sanitizeL (strLower s).data) :
    (c.isAlphanum = true ∧ lowerChar c = c) ∨ c = '_' := by
  have hdata : (strLower s).data = s.data.map lowerChar := rfl
  rw [hdata] at hc
  unfold sanitizeL at hc
  rw [List.map_map] at hc
  obtain ⟨y, hy, hfy⟩ := List.mem_map.mp hc
  by_cases hal : (lowerChar y).isAlphanum = true
  · left
    have hcy : c = lowerChar y := by
      rw [← hfy]
      simp [Function.comp, hal]
    rw [hcy]
    exact ⟨hal, lowerChar_idem y⟩
  · right
    rw [← hfy]
    simp [Function.comp, hal]

theorem derive_id_chars (title artist : String) (c : Char)
    (hc : c ∈ (derive_id title artist).data) :
    (c.isAlphanum = true ∨ c = '_') ∧ lowerChar c = c := by
  have hus : lowerChar '_' = '_' := by decide
  unfold derive_id derive_core at hc
  rcases mem_joinUS _ c hc with rfl | ⟨p, hp, hcp⟩
  · exact ⟨Or.inr rfl, hus⟩
  · have hp' := (List.mem_filter.mp hp).1
    have hcin := mem_of_mem_splitUS _ p c hp' hcp
    rcases List.mem_append.mp hcin with h1 | h1
    · rcases mem_sanitize_lower artist c h1 with ⟨h2, h3⟩ | rfl
      · exact ⟨Or.inl h2, h3⟩
      · exact ⟨Or.inr rfl, hus⟩
    · rcases List.mem_cons.mp h1 with rfl | h2
      · exact ⟨Or.inr rfl, hus⟩
      · rcases mem_sanitize_lower title c h2 with ⟨h3, h4⟩ | rfl
        · exact ⟨Or.inl h3, h4⟩
        · exact ⟨Or.inr rfl, hus⟩

theorem derive_id_shape (title artist : String) :
    noLeadUS (derive_id title artist).data = true ∧
    noTrailUS (derive_id title artist).data = true ∧
    noDoubleUS (derive_id title artist).data = true := by
  unfold derive_id derive_core
  refine joinUS_shape _ ?_
  intro p hp
  obtain ⟨hp1, hp2⟩ := List.mem_filter.mp hp
  have hpne : p ≠ [] := by
    intro hh
    rw [hh] at hp2
    simp at hp2
  exact ⟨hpne, no_us_of_mem_splitUS _ p hp1⟩

theorem deriveTrackId_strings (mt : Bool) (md : Dict) (title artist : String)
    (ht : dictLookup md "title" = Option.some (PyVal.str title))
    (ha : dictLookup md "artist" = Option.some (PyVal.str artist))
    (hmt : mt = true)
    (hte : (strLower title).isEmpty = false) (hae : (strLower artist).isEmpty = false) :
    deriveTrackId mt md = Except.ok (Option.some (derive_id title artist)) := by
  subst hmt
  have hmd : md.isEmpty = false := by
    cases md with
    | nil => simp [dictLookup] at ht
    | cons x xs => rfl
  unfold deriveTrackId
  rw [show (true && !md.isEmpty) = true by simp [hmd]]
  simp only [if_true]
  unfold dictGet
  rw [ht, ha]
  simp only [pyLower]
  rw [show (!(strLower title).isEmpty && !(strLower artist).isEmpty) = true by
    simp [hte, hae]]
  simp [derive_id]

theorem zip_get? (e : List EmbInput) (c : List PyVal) (j : Nat) (a : EmbInput) (b : PyVal)
    (ha : e.get? j = Option.some a) (hb : c.get? j = Option.some b) :
    (e.zip c).get? j = Option.some (a, b) := by
  induction e generalizing c j with
  | nil => simp at ha
  | cons x xs ih =>
    cases c with
    | nil => simp at hb
    | cons y ys =>
      cases j with
      | zero =>
        obtain rfl : x = a := by simpa using ha
        obtain rfl : y = b := by simpa using hb
        rfl
      | succ j' =>
        have ha' : xs.get? j' = Option.some a := by simpa using ha
        have hb' : ys.get? j' = Option.some b := by simpa using hb
        simpa using ih ys j' ha' hb'

theorem add_embeddings_build_error (cfg : StoreConfig) (e : List EmbInput) (c : List PyVal)
    (md : Option (List Dict)) (r : RemoteOutcome) (err : PyError)
    (h1 : e.isEmpty = false) (h2 : e.length = c.length)
    (h3 : (metaTruthy md && ((md.getD []).length != e.length)) = false)
    (hb : buildRecords cfg (metaTruthy md) (mdAt md) 0 (e.zip c) = Except.error err) :
    add_embeddings cfg e c md r = ([], Except.error err) := by
  have h2' : ¬e.length ≠ c.length := by omega
  unfold add_embeddings
  rw [if_neg (by simp [h1]), if_neg h2', if_neg (by simp [h3]), hb]

theorem add_embeddings_some_nil (cfg : StoreConfig) (e : List EmbInput) (c : List PyVal)
    (r : RemoteOutcome) :
    add_embeddings cfg e c (Option.some []) r
      = ((add_embeddings cfg e c Option.none r).1,
         (add_embeddings cfg e c Option.none r).2.map (fun _ => Option.some [])) := by
  have hmt : metaTruthy (Option.some ([] : List Dict)) = metaTruthy Option.none := rfl
  have hmd : mdAt (Option.some ([] : List Dict)) = mdAt Option.none := by
    funext i
    rfl
  by_cases h1 : e.isEmpty = true
  · simp [add_embeddings, h1, Except.map]
  by_cases h2 : e.length ≠ c.length
  · simp [add_embeddings, h1, h2, Except.map]
  have h1' : e.isEmpty = false := by simpa using h1
  have h2' : e.length = c.length := by omega
  have h3 : (metaTruthy (Option.some ([] : List Dict))
      && (((Option.some ([] : List Dict)).getD []).length != e.length)) = false := rfl
  have h3' : (metaTruthy (Option.none : Option (List Dict))
      && (((Option.none : Option (List Dict)).getD []).length != e.length)) = false := rfl
  cases hb : buildRecords cfg (metaTruthy (Option.none : Option (List Dict)))
      (mdAt Option.none) 0 (e.zip c) with
  | error err =>
    have hb2 : buildRecords cfg (metaTruthy (Option.some ([] : List Dict)))
        (mdAt (Option.some [])) 0 (e.zip c) = Except.error err := by
      rw [hmt, hmd]
      exact hb
    rw [add_embeddings_build_error cfg e c Option.none r err h1' h2' h3' hb,
      add_embeddings_build_error cfg e c (Option.some []) r err h1' h2' h3 hb2]
    rfl
  | ok pairs =>
    have hb2 : buildRecords cfg (metaTruthy (Option.some ([] : List Dict)))
        (mdAt (Option.some [])) 0 (e.zip c) = Except.ok pairs := by
      rw [hmt, hmd]
      exact hb
    rw [add_embeddings_run cfg e c Option.none r pairs h1' h2' h3' hb,
      add_embeddings_run cfg e c (Option.some []) r pairs h1' h2' h3 hb2]
    cases r with
    | ok d => rfl
    | errorField p => rfl
    | raised m => rfl

theorem processItem_err_msg (cfg : StoreConfig) (mt : Bool) (i : Nat) (emb : EmbInput)
    (cont : PyVal) (md : Dict) (hv : itemValid (emb, cont) = false) :
    processItem cfg mt i emb cont md
      = Except.error (PyError.valueError (itemErrMsg i (emb, cont))) := by
  cases emb with
  | notArray v => simp [processItem, itemErrMsg, isNd]
  | ndarray xs =>
    cases cont with
    | str s =>
      have hs : s.isEmpty = true := by
        simpa [itemValid, isNd, contentOk] using hv
      simp [processItem, itemErrMsg, isNd, hs]
    | none => simp [processItem, itemErrMsg, isNd]
    | int n => simp [processItem, itemErrMsg, isNd]
    | arr a => simp [processItem, itemErrMsg, isNd]

theorem buildRecords_err_first (cfg : StoreConfig) (mt : Bool) (mdf : Nat → Dict)
    (hwt : ∀ k, mdWellTyped (mdf k) = true) :
    ∀ (items : List (EmbInput × PyVal)) (i0 j : Nat) (it : EmbInput × PyVal),
    items.get? j = Option.some it → itemValid it = false →
    (∀ k it', k < j → items.get? k = Option.some it' → itemValid it' = true) →
    buildRecords cfg mt mdf i0 items
      = Except.error (PyError.valueError (itemErrMsg (i0 + j) it)) := by
  intro items
  induction items with
  | nil =>
    intro i0 j it hj
    simp at hj
  | cons x rest ih =>
    intro i0 j it hj hbad hprior
    cases j with
    | zero =>
      obtain rfl : x = it := by simpa using hj
      have hp := processItem_err_msg cfg mt i0 x.1 x.2 (mdf i0) hbad
      rw [Nat.add_zero]
      simp only [buildRecords, hp]
    | succ j' =>
      have hvx : itemValid x = true := hprior 0 x (Nat.succ_pos j') (by simp)
      obtain ⟨pr, hp⟩ := processItem_ok_of_valid cfg mt i0 x.1 x.2 (mdf i0) (hwt i0) hvx
      have hrec := ih (i0 + 1) j' it (by simpa using hj) hbad
        (fun k it' hk hk' => hprior (k + 1) it' (by omega) (by simpa using hk'))
      rw [show i0 + 1 + j' = i0 + (j' + 1) from by omega] at hrec
      simp only [buildRecords, hp, hrec]

theorem mdAt_some_get (ml : List Dict) (k : Nat) (md' : Dict)
    (h : ml.get? k = Option.some md') : mdAt (Option.some ml) k = md' := by
  have hun : mdAt (Option.some ml) k = (ml.get? k).getD [] := rfl
  rw [hun, h]
  rfl

theorem mutateMetadata_get_ok (cfg : StoreConfig) (mt : Bool) :
    ∀ (items : List (EmbInput × PyVal)) (mds : List Dict) (i0 j : Nat)
      (it : EmbInput × PyVal) (md0 : Dict) (pr : Dict × Dict),
    items.get? j = Option.some it → mds.get? j = Option.some md0 →
    (∀ k it' md', k < j → items.get? k = Option.some it' → mds.get? k = Option.some md' →
      ∃ pr', processItem cfg mt (i0 + k) it'.1 it'.2 md' = Except.ok pr') →
    processItem cfg mt (i0 + j) it.1 it.2 md0 = Except.ok pr →
    (mutateMetadata cfg mt i0 items mds).get? j = Option.some pr.2 := by
  intro items
  induction items with
  | nil =>
    intro mds i0 j it md0 pr hit
    simp at hit
  | cons x rest ih =>
    intro mds i0 j it md0 pr hit hmd hprior hj
    cases mds with
    | nil => simp at hmd
    | cons m ms =>
      cases j with
      | zero =>
        obtain rfl : x = it := by simpa using hit
        obtain rfl : m = md0 := by simpa using hmd
        rw [Nat.add_zero] at hj
        simp [mutateMetadata, hj]
      | succ j' =>
        obtain ⟨pr0, hp0⟩ := hprior 0 x m (Nat.succ_pos j') (by simp) (by simp)
        rw [Nat.add_zero] at hp0
        have hrec := ih ms (i0 + 1) j' it md0 pr (by simpa using hit) (by simpa using hmd)
          (fun k it' md' hk hk1 hk2 => by
            have hh := hprior (k + 1) it' md' (by omega) (by simpa using hk1)
              (by simpa using hk2)
            rwa [show i0 + (k + 1) = i0 + 1 + k from by omega] at hh)
          (by rwa [show i0 + (j' + 1) = i0 + 1 + j' from by omega] at hj)
        rw [show mutateMetadata cfg mt i0 (x :: rest) (m :: ms)
            = pr0.2 :: mutateMetadata cfg mt (i0 + 1) rest ms from by
          simp [mutateMetadata, hp0]]
        simpa using hrec

theorem mutateMetadata_get_stopped (cfg : StoreConfig) (mt : Bool) :
    ∀ (items : List (EmbInput × PyVal)) (mds : List Dict) (i0 j k : Nat)
      (md0 : Dict) (it' : EmbInput × PyVal) (md' : Dict) (err : PyError),
    mds.get? j = Option.some md0 → k ≤ j →
    items.get? k = Option.some it' → mds.get? k = Option.some md' →
    processItem cfg mt (i0 + k) it'.1 it'.2 md' = Except.error err →
    (mutateMetadata cfg mt i0 items mds).get? j = Option.some md0 := by
  intro items
  induction items with
  | nil =>
    intro mds i0 j k md0 it' md' err hmd hk hit
    simp at hit
  | cons x rest ih =>
    intro mds i0 j k md0 it' md' err hmd hk hit hmdk herr
    cases mds with
    | nil => simp at hmd
    | cons m ms =>
      cases hp : processItem cfg mt i0 x.1 x.2 m with
      | error e0 => simpa [mutateMetadata, hp] using hmd
      | ok pr0 =>
        cases k with
        | zero =>
          obtain rfl : x = it' := by simpa using hit
          obtain rfl : m = md' := by simpa using hmdk
          rw [Nat.add_zero] at herr
          rw [hp] at herr
          exact Except.noConfusion herr
        | succ k' =>
          cases j with
          | zero => omega
          | succ j' =>
            have hrec := ih ms (i0 + 1) j' k' md0 it' md' err (by simpa using hmd)
              (by omega) (by simpa using hit) (by simpa using hmdk)
              (by rwa [show i0 + (k' + 1) = i0 + 1 + k' from by omega] at herr)
            simpa [mutateMetadata, hp] using hrec

theorem buildRecords_mutateMetadata (cfg : StoreConfig) (mt : Bool) (mdf : Nat → Dict) :
    ∀ (items : List (EmbInput × PyVal)) (mds : List Dict) (i0 : Nat)
      (pairs : List (Dict × Dict)),
    items.length = mds.length →
    (∀ k md', mds.get? k = Option.some md' → mdf (i0 + k) = md') →
    buildRecords cfg mt mdf i0 items = Except.ok pairs →
    mutateMetadata cfg mt i0 items mds = pairs.map (fun pr => pr.2) := by
  intro items
  induction items with
  | nil =>
    intro mds i0 pairs hlen halign hb
    obtain rfl : mds = [] := by
      cases mds with
      | nil => rfl
      | cons m ms => simp at hlen
    simp only [buildRecords] at hb
    obtain rfl : pairs = [] := by
      cases hb
      rfl
    rfl
  | cons x rest ih =>
    intro mds i0 pairs hlen halign hb
    cases mds with
    | nil => simp at hlen
    | cons m ms =>
      have hm : mdf i0 = m := by
        have hh := halign 0 m (by simp)
        simpa using hh
      cases hp : processItem cfg mt i0 x.1 x.2 (mdf i0) with
      | error e0 =>
        simp only [buildRecords, hp] at hb
        exact Except.noConfusion hb
      | ok pr0 =>
        cases hr : buildRecords cfg mt mdf (i0 + 1) rest with
        | error e0 =>
          simp only [buildRecords, hp, hr] at hb
          exact Except.noConfusion hb
        | ok tail =>
          simp only [buildRecords, hp, hr] at hb
          obtain rfl : pairs = pr0 :: tail := by
            cases hb
            rfl
          have hrec := ih ms (i0 + 1) tail (by simpa using hlen)
            (fun k md' hk => by
              have hh := halign (k + 1) md' (by simpa using hk)
              rwa [show i0 + (k + 1) = i0 + 1 + k from by omega] at hh) hr
          rw [hm] at hp
          simp [mutateMetadata, hp, hrec]

theorem add_embeddings_ok_metadataAfter (cfg : StoreConfig) (e : List EmbInput)
    (c : List PyVal) (md : Option (List Dict)) (r : RemoteOutcome)
    (out : Option (List Dict))
    (h : (add_embeddings cfg e c md r).2 = Except.ok out) :
    out = metadataAfter cfg e c md := by
  obtain ⟨pairs, d, hb, hout, hr, h1, h2, h3⟩ := add_embeddings_ok_inv cfg e c md r out h
  have h2' : ¬e.length ≠ c.length := by omega
  unfold metadataAfter
  rw [if_neg (by simp [h1]), if_neg h2', if_neg (by simp [h3])]
  cases md with
  | none =>
    rw [hout]
    rfl
  | some ml =>
    rw [hout]
    cases ml with
    | nil =>
      have hmm : mutateMetadata cfg (metaTruthy (Option.some ([] : List Dict))) 0
          (e.zip c) [] = [] := by
        cases e.zip c with
        | nil => simp [mutateMetadata]
        | cons a b => simp [mutateMetadata]
      show Option.some ([] : List Dict)
        = Option.some (mutateMetadata cfg (metaTruthy (Option.some ([] : List Dict))) 0
            (e.zip c) [])
      rw [hmm]
    | cons m0 mrest =>
      have hmt : metaTruthy (Option.some (m0 :: mrest)) = true := rfl
      have hlenm : (m0 :: mrest).length = e.length := by
        rw [hmt] at h3
        simpa using h3
      have hziplen : (e.zip c).length = (m0 :: mrest).length := by
        rw [List.length_zip]
        omega
      have hmm := buildRecords_mutateMetadata cfg (metaTruthy (Option.some (m0 :: mrest)))
        (mdAt (Option.some (m0 :: mrest))) (e.zip c) (m0 :: mrest) 0 pairs hziplen
        (fun k md' hk => by
          rw [Nat.zero_add]
          exact mdAt_some_get (m0 :: mrest) k md' hk) hb
      rw [show finalMetadata (Option.some (m0 :: mrest)) pairs
          = Option.some (pairs.map (fun pr => pr.2)) from rfl, ← hmm]

/-- C1, counterexample: for the append item `{artist: "x"}` (no title), the
row built and inserted still contains the key `id` — mapped to `None` —
rather than omitting it: line 137 always writes `'id': track_id` into the
record, and `track_id` is `None` when no id was derived. -/
theorem c1_counterexample :
    (add_embeddings defaultConfig [EmbInput.ndarray [1]] [PyVal.str "c"]
        (Option.some [[("artist", PyVal.str "x")]]) (RemoteOutcome.ok [])).1
      = [RemoteCall.insert "song_embeddings"
          [[("id", PyVal.none), ("embedding", PyVal.arr [PyVal.int 1]),
            ("content", PyVal.str "c")]]] ∧
    dictLookup [("id", PyVal.none), ("embedding", PyVal.arr [PyVal.int 1]),
        ("content", PyVal.str "c")] "id" = Option.some PyVal.none :=
  ⟨rfl, rfl⟩

/-- C1, amended: for every append call whose batched insert was issued,
each row built for an item for which no id was derived (metadata falsy, or
title or artist missing/empty after lower-casing) contains the `id` key
explicitly set to null (`PyVal.none`) — the key is present with a null
value, not omitted — provided the configured columns do not shadow `id`. -/
theorem c1_null_id (cfg : StoreConfig)
    (hid1 : "id" ∉ cfg.metadata_columns) (hid2 : cfg.embedding_column ≠ "id")
    (hid3 : cfg.content_column ≠ "id")
    (e : List EmbInput) (c : List PyVal) (md : Option (List Dict)) (r : RemoteOutcome)
    (tn : String) (rs : List Dict)
    (ht : (add_embeddings cfg e c md r).1 = [RemoteCall.insert tn rs])
    (j : Nat) (rec : Dict) (hrec : rs.get? j = Option.some rec)
    (hder : deriveTrackId (metaTruthy md) (mdAt md j) = Except.ok Option.none) :
    dictLookup rec "id" = Option.some PyVal.none := by
  obtain ⟨pairs, hb, hrs, htn, h1, h2, h3⟩ := add_embeddings_trace_inv cfg e c md r tn rs ht
  obtain ⟨hplen, hget⟩ := buildRecords_ok_inv cfg (metaTruthy md) (mdAt md) (e.zip c) 0 pairs hb
  subst hrs
  rw [List.get?_map] at hrec
  cases hp : pairs.get? j with
  | none =>
    rw [hp] at hrec
    exact Option.noConfusion hrec
  | some pr =>
    rw [hp] at hrec
    have hrec1 : pr.1 = rec := by simpa using hrec
    have hj : j < pairs.length := (List.get?_eq_some.mp hp).1
    have hj' : j < (e.zip c).length := by omega
    have hit := List.get?_eq_get hj'
    obtain ⟨pr', hpr', hproc⟩ := hget j ((e.zip c).get ⟨j, hj'⟩) hit
    rw [hp] at hpr'
    have hpp : pr = pr' := Option.some.inj hpr'
    rw [← hpp] at hproc
    rw [Nat.zero_add] at hproc
    obtain ⟨xs, s, tid, hxs, hcs, hse, hdt, hpreq⟩ :=
      processItem_ok_inv cfg (metaTruthy md) j _ _ (mdAt md j) pr hproc
    rw [hder] at hdt
    obtain rfl : tid = Option.none := (Except.ok.inj hdt).symm
    rw [← hrec1, hpreq]
    exact buildRecord_lookup_id cfg Option.none xs s (metaTruthy md) _ hid2 hid3 hid1

/-- Witness for C1's amended theorem: a concrete append with a title-only
metadata item; the inserted row carries `id = None`. -/
theorem c1_null_id_witness :
    dictLookup [("id", PyVal.none), ("embedding", PyVal.arr [PyVal.int 5]),
        ("content", PyVal.str "w")] "id" = Option.some PyVal.none :=
  c1_null_id defaultConfig (by simp [defaultConfig]) (by decide) (by decide)
    [EmbInput.ndarray [5]] [PyVal.str "w"]
    (Option.some [[("title", PyVal.str "OnlyTitle")]]) (RemoteOutcome.ok [])
    "song_embeddings"
    [[("id", PyVal.none), ("embedding", PyVal.arr [PyVal.int 5]), ("content", PyVal.str "w")]]
    rfl 0
    [("id", PyVal.none), ("embedding", PyVal.arr [PyVal.int 5]), ("content", PyVal.str "w")]
    rfl rfl

/-- C2: ID derivation is a pure deterministic function `derive_id` of the
title and artist strings: lower-cased, every run of non-alphanumeric
characters collapsed to a single underscore, no leading, trailing or
duplicated underscores; `("Never Gonna Give You Up", "Rick Astley")`
yields `"rick_astley_never_gonna_give_you_up"` and `"Artist!!  Name"`
collapses to `"artist_name"`; on string-typed metadata, `append`'s
in-loop derivation computes exactly `derive_id title artist`. -/
theorem c2_derive_id_pure :
    derive_id "Never Gonna Give You Up" "Rick Astley"
      = "rick_astley_never_gonna_give_you_up" ∧
    derive_id "Song" "Artist!!  Name" = "artist_name_song" ∧
    (∀ title artist, noLeadUS (derive_id title artist).data = true ∧
      noTrailUS (derive_id title artist).data = true ∧
      noDoubleUS (derive_id title artist).data = true) ∧
    (∀ title artist c, c ∈ (derive_id title artist).data →
      (c.isAlphanum = true ∨ c = '_') ∧ lowerChar c = c) ∧
    (∀ mt md title artist,
      dictLookup md "title" = Option.some (PyVal.str title) →
      dictLookup md "artist" = Option.some (PyVal.str artist) →
      mt = true → (strLower title).isEmpty = false → (strLower artist).isEmpty = false →
      deriveTrackId mt md = Except.ok (Option.some (derive_id title artist))) := by
  refine ⟨rfl, rfl, ?_, ?_, ?_⟩
  · intro title artist
    exact derive_id_shape title artist
  · intro title artist c hc
    exact derive_id_chars title artist c hc
  · intro mt md title artist ht ha hmt hte hae
    exact deriveTrackId_strings mt md title artist ht ha hmt hte hae

/-- Witness for C2 at the spec's Rick Astley example, through `append`'s
own derivation path. -/
theorem c2_derive_id_pure_witness :
    deriveTrackId true
      [("title", PyVal.str "Never Gonna Give You Up"),
       ("artist", PyVal.str "Rick Astley")]
      = Except.ok (Option.some "rick_astley_never_gonna_give_you_up") := by
  have h := c2_derive_id_pure
  have h5 := h.2.2.2.2 true
    [("title", PyVal.str "Never Gonna Give You Up"), ("artist", PyVal.str "Rick Astley")]
    "Never Gonna Give You Up" "Rick Astley" rfl rfl rfl (by decide) (by decide)
  rw [h5, h.1]

/-- C3, counterexample: an input that is valid in the claim's sense
(equal-length lists, the embedding a numpy array, the content a non-empty
string) on which `append` issues no insert at all: a metadata item whose
`title` is the integer `7` makes `.lower()` raise before the batched
insert, so no row is submitted. -/
theorem c3_counterexample :
    (add_embeddings defaultConfig [EmbInput.ndarray [3]] [PyVal.str "e"]
        (Option.some [[("title", PyVal.int 7), ("artist", PyVal.str "z")]])
        (RemoteOutcome.ok [])).1 = [] ∧
    (add_embeddings defaultConfig [EmbInput.ndarray [3]] [PyVal.str "e"]
        (Option.some [[("title", PyVal.int 7), ("artist", PyVal.str "z")]])
        (RemoteOutcome.ok [])).2
      = Except.error (PyError.attributeError "int object has no attribute lower") :=
  ⟨rfl, rfl⟩

/-- C3, amended: for valid input whose metadata `title`/`artist` values
are strings (when present) and whose configured columns are pairwise
distinct from each other and from the allow-list, `append` issues exactly
one batched insert with one row per (embedding, content) pair: the
embedding column holds the embedding as a plain array, the content column
the content verbatim, allow-listed metadata keys present in the item's
metadata are copied in, and no other key appears. -/
theorem c3_append_rows (cfg : StoreConfig)
    (hc1 : cfg.embedding_column ≠ cfg.content_column)
    (hc2 : cfg.embedding_column ∉ cfg.metadata_columns)
    (hc3 : cfg.content_column ∉ cfg.metadata_columns)
    (hc4 : "id" ∉ cfg.metadata_columns)
    (e : List EmbInput) (c : List PyVal) (md : Option (List Dict)) (r : RemoteOutcome)
    (hne : e ≠ []) (hlen : e.length = c.length)
    (hmlen : metaTruthy md = true → (md.getD []).length = e.length)
    (hval : ∀ it ∈ e.zip c, itemValid it = true)
    (hwt : ∀ d ∈ md.getD [], mdWellTyped d = true) :
    ∃ rs, (add_embeddings cfg e c md r).1 = [RemoteCall.insert cfg.table_name rs] ∧
      rs.length = e.length ∧
      ∀ j, j < e.length →
        ∃ rec, rs.get? j = Option.some rec ∧
          (∀ xs, e.get? j = Option.some (EmbInput.ndarray xs) →
            dictLookup rec cfg.embedding_column
              = Option.some (PyVal.arr (xs.map PyVal.int))) ∧
          (∀ s, c.get? j = Option.some (PyVal.str s) →
            dictLookup rec cfg.content_column = Option.some (PyVal.str s)) ∧
          (∀ k v, k ∈ cfg.metadata_columns → metaTruthy md = true →
            dictLookup (mdAt md j) k = Option.some v →
            dictLookup rec k = Option.some v) ∧
          (∀ k, k ≠ "id" → k ≠ cfg.embedding_column → k ≠ cfg.content_column →
            (metaTruthy md = false ∨ k ∉ cfg.metadata_columns ∨
              dictLookup (mdAt md j) k = Option.none) →
            dictLookup rec k = Option.none) := by
  have h1 : e.isEmpty = false := by
    cases e with
    | nil => exact absurd rfl hne
    | cons a b => rfl
  have h3 : (metaTruthy md && ((md.getD []).length != e.length)) = false := by
    cases hmt : metaTruthy md with
    | false => rfl
    | true => simp [hmlen hmt]
  obtain ⟨pairs, hb⟩ := buildRecords_ok_of_valid cfg (metaTruthy md) (mdAt md) (e.zip c) 0
    (mdAt_wellTyped md hwt) hval
  have hrun := add_embeddings_run cfg e c md r pairs h1 hlen h3 hb
  obtain ⟨hplen, hget⟩ := buildRecords_ok_inv cfg (metaTruthy md) (mdAt md) (e.zip c) 0 pairs hb
  have hziplen : (e.zip c).length = e.length := by
    rw [List.length_zip]
    omega
  refine ⟨pairs.map (fun pr => pr.1), by rw [hrun], by simp [hplen, hziplen], ?_⟩
  intro j hj
  have hje : j < e.length := hj
  have hjc : j < c.length := by omega
  have ha := List.get?_eq_get hje
  have hbc := List.get?_eq_get hjc
  have hzip := zip_get? e c j (e.get ⟨j, hje⟩) (c.get ⟨j, hjc⟩) ha hbc
  obtain ⟨pr, hpr, hproc⟩ := hget j (e.get ⟨j, hje⟩, c.get ⟨j, hjc⟩) hzip
  rw [Nat.zero_add] at hproc
  obtain ⟨xs, s, tid, hxs, hcs, hse, hdt, hpreq⟩ :=
    processItem_ok_inv cfg (metaTruthy md) j _ _ (mdAt md j) pr hproc
  refine ⟨pr.1, ?_, ?_, ?_, ?_, ?_⟩
  · rw [List.get?_map, hpr]
    rfl
  · intro xs' hxs'
    rw [ha] at hxs'
    have hxe : e.get ⟨j, hje⟩ = EmbInput.ndarray xs' := Option.some.inj hxs'
    have hxs2 : e.get ⟨j, hje⟩ = EmbInput.ndarray xs := hxs
    obtain rfl : xs = xs' := EmbInput.ndarray.inj (hxs2.symm.trans hxe)
    rw [hpreq]
    exact buildRecord_lookup_emb cfg tid xs s (metaTruthy md) _ hc1 hc2
  · intro s' hcs'
    rw [hbc] at hcs'
    have hce : c.get ⟨j, hjc⟩ = PyVal.str s' := Option.some.inj hcs'
    have hcs2 : c.get ⟨j, hjc⟩ = PyVal.str s := hcs
    obtain rfl : s = s' := PyVal.str.inj (hcs2.symm.trans hce)
    rw [hpreq]
    exact buildRecord_lookup_content cfg tid xs s (metaTruthy md) _ hc3
  · intro k v hk hmt hv
    rw [hpreq]
    rw [hmt]
    refine buildRecord_lookup_meta cfg tid xs s (mdWithId tid (mdAt md j)) k v hk ?_
    have hkid : k ≠ "id" := fun hh => hc4 (hh ▸ hk)
    cases tid with
    | none => simpa [mdWithId] using hv
    | some t => simpa [mdWithId, dictLookup_dictSet_ne _ _ _ _ hkid] using hv
  · intro k hk1 hk2 hk3 hcase
    rw [hpreq]
    refine buildRecord_lookup_other cfg tid xs s (metaTruthy md)
      (mdWithId tid (mdAt md j)) k hk1 hk2 hk3 ?_
    rcases hcase with hmf | hknot | hnone
    · exact Or.inl hmf
    · exact Or.inr (Or.inl hknot)
    · refine Or.inr (Or.inr ?_)
      cases tid with
      | none => simpa [mdWithId] using hnone
      | some t => simpa [mdWithId, dictLookup_dictSet_ne _ _ _ _ hk1] using hnone

/-- Witness for C3's amended theorem: a concrete valid append with one
allow-listed metadata column. -/
theorem c3_append_rows_witness :
    ∃ rs, (add_embeddings ⟨"song_embeddings", "embedding", "content", ["genre"]⟩
        [EmbInput.ndarray [1, 2]] [PyVal.str "hello"]
        (Option.some [[("genre", PyVal.str "pop")]]) (RemoteOutcome.ok [])).1
      = [RemoteCall.insert "song_embeddings" rs] ∧ rs.length = 1 := by
  obtain ⟨rs, hA, hB, hC⟩ := c3_append_rows
    ⟨"song_embeddings", "embedding", "content", ["genre"]⟩
    (by decide) (by decide) (by decide) (by decide)
    [EmbInput.ndarray [1, 2]] [PyVal.str "hello"]
    (Option.some [[("genre", PyVal.str "pop")]]) (RemoteOutcome.ok [])
    (by simp) rfl (fun _ => rfl) (by decide) (by decide)
  exact ⟨rs, hA, hB⟩

/-- C4, counterexample: two inputs refuting the claim as stated.  First,
an input malformed in the enumerated sense (the second embedding is not a
numpy array) on which `append` raises an `AttributeError`, not a
validation error: item 0's integer `title` hits `.lower()` before item
1's embedding check runs.  Second, metadata provided as the empty list,
whose length differs from the one embedding: the claim demands a
validation error, but the falsy `[]` short-circuits the line-108 length
check and the call succeeds. -/
theorem c4_counterexample :
    (inputMalformed [EmbInput.ndarray [1], EmbInput.notArray (PyVal.int 0)]
      [PyVal.str "a", PyVal.str "b"]
      (Option.some [[("title", PyVal.int 5)], []]) = true ∧
    (add_embeddings defaultConfig [EmbInput.ndarray [1], EmbInput.notArray (PyVal.int 0)]
        [PyVal.str "a", PyVal.str "b"] (Option.some [[("title", PyVal.int 5)], []])
        (RemoteOutcome.ok [])).2
      = Except.error (PyError.attributeError "int object has no attribute lower") ∧
    (∀ m, PyError.attributeError "int object has no attribute lower"
        ≠ PyError.valueError m)) ∧
    (([] : List Dict).length ≠ [EmbInput.ndarray [1]].length ∧
    (add_embeddings defaultConfig [EmbInput.ndarray [1]] [PyVal.str "c"]
        (Option.some []) (RemoteOutcome.ok [])).2 = Except.ok (Option.some [])) := by
  refine ⟨⟨rfl, rfl, ?_⟩, ⟨by decide, rfl⟩⟩
  intro m h
  exact PyError.noConfusion h

/-- C4, amended: when every metadata `title`/`artist` value (if present)
is a string, `append` raises a validation error if and only if the input
is malformed in the enumerated sense (empty embeddings, length
mismatches — the metadata length check only firing when metadata is
truthy, i.e. non-empty —, a non-array embedding, or an empty or
non-string content); on every malformed input nothing is sent to the
remote store; and a per-item failure aborts the whole call at the first
bad item with the code's exact message naming that item's index. -/
theorem c4_append_validation (cfg : StoreConfig) (e : List EmbInput) (c : List PyVal)
    (md : Option (List Dict)) (r : RemoteOutcome)
    (hwt : ∀ d ∈ md.getD [], mdWellTyped d = true) :
    (((∃ m, (add_embeddings cfg e c md r).2 = Except.error (PyError.valueError m)) ↔
      inputMalformed e c md = true) ∧
    (inputMalformed e c md = true → (add_embeddings cfg e c md r).1 = [])) ∧
    (∀ j it, e.isEmpty = false → e.length = c.length →
      (metaTruthy md && ((md.getD []).length != e.length)) = false →
      (e.zip c).get? j = Option.some it → itemValid it = false →
      (∀ k it', k < j → (e.zip c).get? k = Option.some it' → itemValid it' = true) →
      add_embeddings cfg e c md r
        = ([], Except.error (PyError.valueError (itemErrMsg j it)))) := by
  constructor
  ·
    by_cases h1 : e.isEmpty = true
    · refine ⟨⟨fun _ => by simp [inputMalformed, h1], fun _ =>
        ⟨"Embeddings list cannot be empty", by simp [add_embeddings, h1]⟩⟩,
        fun _ => by simp [add_embeddings, h1]⟩
    have h1' : e.isEmpty = false := by simpa using h1
    by_cases h2 : e.length = c.length
    case neg =>
      have hA2 : (e.length != c.length) = true := by simpa using h2
      refine ⟨⟨fun _ => by simp [inputMalformed, hA2], fun _ =>
        ⟨"Number of embeddings (" ++ toString e.length ++
          ") must match number of contents (" ++ toString c.length ++ ")", ?_⟩⟩, fun _ => ?_⟩
      · unfold add_embeddings
        rw [if_neg (by simp [h1']), if_pos h2]
      · unfold add_embeddings
        rw [if_neg (by simp [h1']), if_pos h2]
    have hne2 : ¬e.length ≠ c.length := by omega
    by_cases h3 : (metaTruthy md && ((md.getD []).length != e.length)) = true
    · refine ⟨⟨fun _ => by simp [inputMalformed, h3], fun _ =>
        ⟨"Number of metadata items (" ++ toString (md.getD []).length ++
          ") must match number of embeddings (" ++ toString e.length ++ ")", ?_⟩⟩, fun _ => ?_⟩
      · unfold add_embeddings
        rw [if_neg (by simp [h1']), if_neg hne2, if_pos h3]
      · unfold add_embeddings
        rw [if_neg (by simp [h1']), if_neg hne2, if_pos h3]
    have h3' : (metaTruthy md && ((md.getD []).length != e.length)) = false := by
      simpa using h3
    have hwt' := mdAt_wellTyped md hwt
    have hA2 : (e.length != c.length) = false := by simp [h2]
    have hmal : inputMalformed e c md
        = ((e.any fun x => !isNd x) || c.any fun x => !contentOk x) := by
      simp [inputMalformed, h1', hA2, h3']
    by_cases hitems : ((e.any fun x => !isNd x) || c.any fun x => !contentOk x) = true
    · obtain ⟨it, hmem, hbad⟩ := (malformed_items_iff e c h2).mp hitems
      obtain ⟨m, hberr⟩ := buildRecords_err_of_invalid cfg (metaTruthy md) (mdAt md)
        (e.zip c) 0 hwt' ⟨it, hmem, hbad⟩
      have hres := add_embeddings_build_error cfg e c md r (PyError.valueError m)
        h1' h2 h3' hberr
      refine ⟨⟨fun _ => by rw [hmal]; exact hitems, fun _ => ⟨m, by rw [hres]⟩⟩,
        fun _ => by rw [hres]⟩
    · have hvalid : ∀ it ∈ e.zip c, itemValid it = true := by
        intro it hmem
        cases hx : itemValid it with
        | true => rfl
        | false => exact absurd ((malformed_items_iff e c h2).mpr ⟨it, hmem, hx⟩) hitems
      obtain ⟨pairs, hb⟩ := buildRecords_ok_of_valid cfg (metaTruthy md) (mdAt md)
        (e.zip c) 0 hwt' hvalid
      have hrun := add_embeddings_run cfg e c md r pairs h1' h2 h3' hb
      have hnoval : ¬∃ m, (add_embeddings cfg e c md r).2
          = Except.error (PyError.valueError m) := by
        rintro ⟨m, hm⟩
        rw [hrun] at hm
        cases r with
        | ok d => simp at hm
        | errorField p => simp at hm
        | raised q => simp at hm
      have hmalf : inputMalformed e c md = false := by
        rw [hmal]
        cases hx : ((e.any fun x => !isNd x) || c.any fun x => !contentOk x) with
        | false => rfl
        | true => exact absurd hx hitems
      refine ⟨⟨fun hex => absurd hex hnoval, fun hm => ?_⟩, fun hm => ?_⟩
      · rw [hmalf] at hm
        exact Bool.noConfusion hm
      · rw [hmalf] at hm
        exact Bool.noConfusion hm
  · intro j it hE hL hM hit hbad hprior
    have hberr := buildRecords_err_first cfg (metaTruthy md) (mdAt md)
      (mdAt_wellTyped md hwt) (e.zip c) 0 j it hit hbad hprior
    rw [Nat.zero_add] at hberr
    exact add_embeddings_build_error cfg e c md r _ hE hL hM hberr

/-- Witness for C4's amended theorem: the empty call raises a validation
error with nothing sent, and a call whose first item has a non-array
embedding aborts with the message naming index 0. -/
theorem c4_append_validation_witness :
    ((∃ m, (add_embeddings defaultConfig [] [] Option.none (RemoteOutcome.ok [])).2
      = Except.error (PyError.valueError m)) ∧
    (add_embeddings defaultConfig [] [] Option.none (RemoteOutcome.ok [])).1 = []) ∧
    add_embeddings defaultConfig [EmbInput.notArray (PyVal.int 0)] [PyVal.str "a"]
        Option.none (RemoteOutcome.ok [])
      = ([], Except.error (PyError.valueError
          (itemErrMsg 0 (EmbInput.notArray (PyVal.int 0), PyVal.str "a")))) := by
  have hA := c4_append_validation defaultConfig [] [] Option.none (RemoteOutcome.ok [])
    (by intro d hd; simp at hd)
  have hB := c4_append_validation defaultConfig [EmbInput.notArray (PyVal.int 0)]
    [PyVal.str "a"] Option.none (RemoteOutcome.ok []) (by intro d hd; simp at hd)
  exact ⟨⟨hA.1.1.mpr rfl, hA.1.2 rfl⟩,
    hB.2 0 (EmbInput.notArray (PyVal.int 0), PyVal.str "a") rfl rfl rfl rfl rfl
      (fun k it' hk hk' => absurd hk (Nat.not_lt_zero k))⟩

/-- C5: `search_similar` raises a validation error before any remote call
exactly when the query embedding is not a numpy array, `num_results < 1`,
or the similarity threshold lies outside `[0, 1]`; in particular
`num_results = 0` and `similarity_threshold = 3/2` raise, while the
boundary thresholds `0` and `1` are accepted. -/
theorem c5_search_validation (cfg : StoreConfig) (q : EmbInput) (n : Int) (t : Rat)
    (r : RemoteOutcome) :
    ((∃ m, (search_similar cfg q n t r).2 = Except.error (PyError.valueError m)) ↔
      (isNd q = false ∨ n < 1 ∨ t < 0 ∨ 1 < t)) ∧
    ((isNd q = false ∨ n < 1 ∨ t < 0 ∨ 1 < t) → (search_similar cfg q n t r).1 = []) ∧
    ((search_similar cfg (EmbInput.ndarray [1]) 0 0 r).2
      = Except.error (PyError.valueError "num_results must be positive")) ∧
    ((search_similar cfg (EmbInput.ndarray [1]) 5 (3 / 2) r).2
      = Except.error (PyError.valueError "similarity_threshold must be between 0 and 1")) ∧
    (∀ data, (search_similar cfg (EmbInput.ndarray [1]) 5 0 (RemoteOutcome.ok data)).2
        = Except.ok data ∧
      (search_similar cfg (EmbInput.ndarray [1]) 5 1 (RemoteOutcome.ok data)).2
        = Except.ok data) := by
  have hthr32 : ¬((0 : Rat) ≤ 3 / 2 ∧ (3 / 2 : Rat) ≤ 1) := by norm_num
  refine ⟨?_, ?_, by simp [search_similar], by simp [search_similar, hthr32], ?_⟩
  · cases q with
    | notArray v =>
      exact ⟨fun _ => Or.inl rfl,
        fun _ => ⟨"query_embedding must be a numpy array", rfl⟩⟩
    | ndarray xs =>
      by_cases hn : n < 1
      · exact ⟨fun _ => Or.inr (Or.inl hn),
          fun _ => ⟨"num_results must be positive", by simp [search_similar, hn]⟩⟩
      · by_cases hthr : 0 ≤ t ∧ t ≤ 1
        · constructor
          · rintro ⟨m, hm⟩
            cases r with
            | ok data => simp [search_similar, hn, hthr] at hm
            | errorField p => simp [search_similar, hn, hthr] at hm
            | raised q' => simp [search_similar, hn, hthr] at hm
          · rintro (hq | hq | hq | hq)
            · exact absurd hq (by simp [isNd])
            · exact absurd hq hn
            · exact absurd hq (not_lt.mpr hthr.1)
            · exact absurd hq (not_lt.mpr hthr.2)
        · constructor
          · intro _
            rcases not_and_or.mp hthr with hq | hq
            · exact Or.inr (Or.inr (Or.inl (not_le.mp hq)))
            · exact Or.inr (Or.inr (Or.inr (not_le.mp hq)))
          · intro _
            exact ⟨"similarity_threshold must be between 0 and 1",
              by simp [search_similar, hn, hthr]⟩
  · rintro (hq | hq | hq | hq)
    · cases q with
      | notArray v => rfl
      | ndarray xs => exact absurd hq (by simp [isNd])
    · cases q with
      | notArray v => rfl
      | ndarray xs => simp [search_similar, hq]
    · cases q with
      | notArray v => rfl
      | ndarray xs =>
        have hthr : ¬(0 ≤ t ∧ t ≤ 1) := fun hh => absurd hq (not_lt.mpr hh.1)
        by_cases hn : n < 1
        · simp [search_similar, hn]
        · simp [search_similar, hn, hthr]
    · cases q with
      | notArray v => rfl
      | ndarray xs =>
        have hthr : ¬(0 ≤ t ∧ t ≤ 1) := fun hh => absurd hq (not_lt.mpr hh.2)
        by_cases hn : n < 1
        · simp [search_similar, hn]
        · simp [search_similar, hn, hthr]
  · intro data
    exact ⟨by simp [search_similar], by simp [search_similar]⟩

/-- Witness for C5 at a concrete out-of-range call. -/
theorem c5_search_validation_witness :
    ∃ m, (search_similar defaultConfig (EmbInput.notArray (PyVal.int 3)) 5 0
        (RemoteOutcome.ok [])).2 = Except.error (PyError.valueError m) :=
  (c5_search_validation defaultConfig (EmbInput.notArray (PyVal.int 3)) 5 0
    (RemoteOutcome.ok [])).1.mpr (Or.inl rfl)

/-- C6: `delete` raises a validation error if and only if the filter is
empty (and then no remote call is made); every non-empty filter issues
exactly one delete request carrying one equality constraint per filter
key in iteration order; `delete {id: "x"}` issues one delete constrained
by `id = "x"`. -/
theorem c6_delete_validation (cfg : StoreConfig) (f : Dict) (r : RemoteOutcome) :
    ((∃ m, (delete_embeddings cfg f r).2 = Except.error (PyError.valueError m)) ↔ f = []) ∧
    (f = [] → (delete_embeddings cfg f r).1 = []) ∧
    (f ≠ [] → (delete_embeddings cfg f r).1 = [RemoteCall.deleteEq cfg.table_name f]) ∧
    (delete_embeddings cfg [("id", PyVal.str "x")] (RemoteOutcome.ok [])
      = ([RemoteCall.deleteEq cfg.table_name [("id", PyVal.str "x")]], Except.ok ())) := by
  cases f with
  | nil =>
    refine ⟨⟨fun _ => rfl, fun _ => ⟨"filter_dict cannot be empty", rfl⟩⟩,
      fun _ => rfl, fun h => absurd rfl h, rfl⟩
  | cons kv rest =>
    refine ⟨⟨?_, ?_⟩, ?_, ?_, rfl⟩
    · rintro ⟨m, hm⟩
      cases r with
      | ok d => simp [delete_embeddings] at hm
      | errorField p => simp [delete_embeddings] at hm
      | raised q => simp [delete_embeddings] at hm
    · intro h
      exact List.noConfusion h
    · intro h
      exact List.noConfusion h
    · intro _
      cases r with
      | ok d => rfl
      | errorField p => rfl
      | raised q => rfl

/-- Witness for C6 at the spec's example `delete {id: "x"}`. -/
theorem c6_delete_validation_witness :
    (delete_embeddings defaultConfig [("id", PyVal.str "x")] (RemoteOutcome.ok [])).1
      = [RemoteCall.deleteEq "song_embeddings" [("id", PyVal.str "x")]] :=
  (c6_delete_validation defaultConfig [("id", PyVal.str "x")]
    (RemoteOutcome.ok [])).2.2.1 (by simp)

/-- C7: for each of the three operations, whenever the one remote call it
issues answers with a truthy error field or raises, the operation fails
with the connection-error kind whose message carries the original remote
error content (the payload is a suffix of the message); `search_similar`
otherwise returns the remote result set verbatim. -/
theorem c7_remote_error_wrapping (cfg : StoreConfig) :
    (∀ e c md p m, (add_embeddings cfg e c md (RemoteOutcome.ok [])).1 ≠ [] →
      (add_embeddings cfg e c md (RemoteOutcome.errorField p)).2
        = Except.error (PyError.connectionError
            ("Failed to insert records: Supabase insert failed: " ++ p)) ∧
      (add_embeddings cfg e c md (RemoteOutcome.raised m)).2
        = Except.error (PyError.connectionError ("Failed to insert records: " ++ m))) ∧
    (∀ q n t p m, (search_similar cfg q n t (RemoteOutcome.ok [])).1 ≠ [] →
      (search_similar cfg q n t (RemoteOutcome.errorField p)).2
        = Except.error (PyError.connectionError
            ("Error during similarity search: Supabase similarity search failed: " ++ p)) ∧
      (search_similar cfg q n t (RemoteOutcome.raised m)).2
        = Except.error (PyError.connectionError ("Error during similarity search: " ++ m)) ∧
      (∀ data, (search_similar cfg q n t (RemoteOutcome.ok data)).2 = Except.ok data)) ∧
    (∀ f p m, f ≠ [] →
      (delete_embeddings cfg f (RemoteOutcome.errorField p)).2
        = Except.error (PyError.connectionError
            ("Error during delete operation: Supabase delete failed: " ++ p)) ∧
      (delete_embeddings cfg f (RemoteOutcome.raised m)).2
        = Except.error (PyError.connectionError ("Error during delete operation: " ++ m))) := by
  refine ⟨?_, ?_, ?_⟩
  · intro e c md p m h
    by_cases h1 : e.isEmpty = true
    · exact absurd (by simp [add_embeddings, h1]) h
    have h1' : e.isEmpty = false := by simpa using h1
    by_cases h2 : e.length ≠ c.length
    · refine absurd ?_ h
      unfold add_embeddings
      rw [if_neg (by simp [h1']), if_pos h2]
    have h2' : e.length = c.length := by omega
    by_cases h3 : (metaTruthy md && ((md.getD []).length != e.length)) = true
    · refine absurd ?_ h
      unfold add_embeddings
      rw [if_neg (by simp [h1']), if_neg h2, if_pos h3]
    have h3' : (metaTruthy md && ((md.getD []).length != e.length)) = false := by
      simpa using h3
    cases hb : buildRecords cfg (metaTruthy md) (mdAt md) 0 (e.zip c) with
    | error err =>
      have hres := add_embeddings_build_error cfg e c md (RemoteOutcome.ok []) err
        h1' h2' h3' hb
      exact absurd (by rw [hres]) h
    | ok pairs =>
      constructor
      · rw [add_embeddings_run cfg e c md (RemoteOutcome.errorField p) pairs h1' h2' h3' hb]
      · rw [add_embeddings_run cfg e c md (RemoteOutcome.raised m) pairs h1' h2' h3' hb]
  · intro q n t p m h
    cases q with
    | notArray v => exact absurd rfl h
    | ndarray xs =>
      by_cases hn : n < 1
      · exact absurd (by simp [search_similar, hn]) h
      · by_cases hthr : 0 ≤ t ∧ t ≤ 1
        · refine ⟨by simp [search_similar, hn, hthr], by simp [search_similar, hn, hthr], ?_⟩
          intro data
          simp [search_similar, hn, hthr]
        · exact absurd (by simp [search_similar, hn, hthr]) h
  · intro f p m h
    cases f with
    | nil => exact absurd rfl h
    | cons kv rest => exact ⟨rfl, rfl⟩

/-- Witness for C7: concrete error-shaped responses on all three
operations are wrapped into connection errors carrying the payload. -/
theorem c7_remote_error_wrapping_witness :
    (add_embeddings defaultConfig [EmbInput.ndarray [1]] [PyVal.str "c"] Option.none
        (RemoteOutcome.errorField "boom")).2
      = Except.error (PyError.connectionError
          ("Failed to insert records: Supabase insert failed: " ++ "boom")) ∧
    (search_similar defaultConfig (EmbInput.ndarray [1]) 5 0
        (RemoteOutcome.errorField "boom")).2
      = Except.error (PyError.connectionError
          ("Error during similarity search: Supabase similarity search failed: " ++ "boom")) ∧
    (delete_embeddings defaultConfig [("id", PyVal.str "x")]
        (RemoteOutcome.errorField "boom")).2
      = Except.error (PyError.connectionError
          ("Error during delete operation: Supabase delete failed: " ++ "boom")) := by
  have h := c7_remote_error_wrapping defaultConfig
  have htr : (add_embeddings defaultConfig [EmbInput.ndarray [1]] [PyVal.str "c"]
      Option.none (RemoteOutcome.ok [])).1
      = [RemoteCall.insert "song_embeddings"
          [[("id", PyVal.none), ("embedding", PyVal.arr [PyVal.int 1]),
            ("content", PyVal.str "c")]]] := rfl
  exact ⟨(h.1 [EmbInput.ndarray [1]] [PyVal.str "c"] Option.none "boom" "x"
      (by rw [htr]; simp)).1,
    (h.2.1 (EmbInput.ndarray [1]) 5 0 "boom" "x" (by simp [search_similar])).1,
    (h.2.2 [("id", PyVal.str "x")] "boom" "x" (by simp)).1⟩

/-- C8: after every append call — whatever the remote outcome, since the
insert happens only after the loop and cannot undo the in-place
mutation — the caller-supplied metadata entry of each item the loop
processed with a derived id contains an `id` key holding the derived id,
while an item processed without a derived id, an item the loop failed on,
and every item at or after a failure keep their metadata dicts unchanged.
`metadataAfter` is the post-state of the caller's metadata list for every
outcome; the last conjunct grounds it in `add_embeddings` on the
observable success path. -/
theorem c8_metadata_mutation (cfg : StoreConfig) (e : List EmbInput) (c : List PyVal)
    (ml : List Dict) (r : RemoteOutcome) (j : Nat) (md0 : Dict)
    (h1 : e.isEmpty = false) (h2 : e.length = c.length) (hml : ml.length = e.length)
    (hmd : ml.get? j = Option.some md0) :
    (∃ mlAfter, metadataAfter cfg e c (Option.some ml) = Option.some mlAfter ∧
      ((∀ k it' md', k < j → (e.zip c).get? k = Option.some it' →
          ml.get? k = Option.some md' →
          ∃ pr', processItem cfg (metaTruthy (Option.some ml)) k it'.1 it'.2 md'
            = Except.ok pr') →
        ∀ it pr, (e.zip c).get? j = Option.some it →
          processItem cfg (metaTruthy (Option.some ml)) j it.1 it.2 md0 = Except.ok pr →
          (∀ tid, deriveTrackId (metaTruthy (Option.some ml)) md0
              = Except.ok (Option.some tid) →
            mlAfter.get? j = Option.some (dictSet md0 "id" (PyVal.str tid)) ∧
            dictLookup (dictSet md0 "id" (PyVal.str tid)) "id"
              = Option.some (PyVal.str tid)) ∧
          (deriveTrackId (metaTruthy (Option.some ml)) md0 = Except.ok Option.none →
            mlAfter.get? j = Option.some md0)) ∧
      (∀ k it' md' err, k ≤ j → (e.zip c).get? k = Option.some it' →
        ml.get? k = Option.some md' →
        processItem cfg (metaTruthy (Option.some ml)) k it'.1 it'.2 md'
          = Except.error err →
        mlAfter.get? j = Option.some md0)) ∧
    (∀ out, (add_embeddings cfg e c (Option.some ml) r).2 = Except.ok out →
      out = metadataAfter cfg e c (Option.some ml)) := by
  have hmlne : ml ≠ [] := by
    intro hh
    rw [hh] at hmd
    simp at hmd
  have hmt : metaTruthy (Option.some ml) = true := by
    cases ml with
    | nil => exact absurd rfl hmlne
    | cons a b => rfl
  have h2' : ¬e.length ≠ c.length := by omega
  have h3 : (metaTruthy (Option.some ml)
      && (((Option.some ml).getD []).length != e.length)) = false := by
    simp [hmt, hml]
  have hMA : metadataAfter cfg e c (Option.some ml)
      = Option.some (mutateMetadata cfg (metaTruthy (Option.some ml)) 0 (e.zip c) ml) := by
    unfold metadataAfter
    rw [if_neg (by simp [h1]), if_neg h2',
      if_neg (fun hh => Bool.noConfusion (h3 ▸ hh))]
  refine ⟨⟨mutateMetadata cfg (metaTruthy (Option.some ml)) 0 (e.zip c) ml, hMA, ?_, ?_⟩, ?_⟩
  · intro hpre it pr hit hproc
    obtain ⟨xs, s', tid, hxs, hcs, hse, hdt, hpreq⟩ :=
      processItem_ok_inv cfg (metaTruthy (Option.some ml)) j it.1 it.2 md0 pr hproc
    have hget := mutateMetadata_get_ok cfg (metaTruthy (Option.some ml)) (e.zip c) ml 0 j
      it md0 pr hit hmd
      (fun k it' md' hk hk1 hk2 => by simpa using hpre k it' md' hk hk1 hk2)
      (by simpa using hproc)
    constructor
    · intro tid' htid
      rw [hdt] at htid
      obtain rfl : tid = Option.some tid' := Except.ok.inj htid
      refine ⟨?_, dictLookup_dictSet_self md0 "id" (PyVal.str tid')⟩
      rw [hget, hpreq]
      rfl
    · intro htid
      rw [hdt] at htid
      obtain rfl : tid = Option.none := Except.ok.inj htid
      rw [hget, hpreq]
      rfl
  · intro k it' md' err hk hit hmdk herr
    exact mutateMetadata_get_stopped cfg (metaTruthy (Option.some ml)) (e.zip c) ml 0 j k
      md0 it' md' err hmd hk hit hmdk (by simpa using herr)
  · intro out hout
    exact add_embeddings_ok_metadataAfter cfg e c (Option.some ml) r out hout

/-- Witness for C8: appending one item with title "T" and artist "A"
leaves the caller's metadata list with its entry mutated to contain
`id = "a_t"`. -/
theorem c8_metadata_mutation_witness :
    ∃ mlAfter, metadataAfter defaultConfig [EmbInput.ndarray [1]] [PyVal.str "x"]
        (Option.some [[("title", PyVal.str "T"), ("artist", PyVal.str "A")]])
      = Option.some mlAfter ∧
      mlAfter.get? 0 = Option.some
        (dictSet [("title", PyVal.str "T"), ("artist", PyVal.str "A")]
          "id" (PyVal.str "a_t")) := by
  obtain ⟨⟨mlAfter, hMA, hA, hB⟩, hC⟩ := c8_metadata_mutation defaultConfig
    [EmbInput.ndarray [1]] [PyVal.str "x"]
    [[("title", PyVal.str "T"), ("artist", PyVal.str "A")]] (RemoteOutcome.ok [])
    0 [("title", PyVal.str "T"), ("artist", PyVal.str "A")] rfl rfl rfl rfl
  refine ⟨mlAfter, hMA, ?_⟩
  exact ((hA (fun k it' md' hk hk1 hk2 => absurd hk (Nat.not_lt_zero k))
    (EmbInput.ndarray [1], PyVal.str "x") _ rfl rfl).1 "a_t" rfl).1

/-- C9: append with a present but non-string `title` (an integer) raises
an exception that is neither the validation-error kind nor the
connection-error kind — Python's `AttributeError` from `.lower()`,
re-raised unchanged by the bare `raise` at line 171 — before any remote
write is issued. -/
theorem c9_nonstring_title_error :
    (add_embeddings defaultConfig [EmbInput.ndarray [2]] [PyVal.str "d"]
        (Option.some [[("title", PyVal.int 42), ("artist", PyVal.str "a")]])
        (RemoteOutcome.ok [])
      = ([], Except.error (PyError.attributeError "int object has no attribute lower"))) ∧
    (∀ m, PyError.attributeError "int object has no attribute lower"
        ≠ PyError.valueError m) ∧
    (∀ m, PyError.attributeError "int object has no attribute lower"
        ≠ PyError.connectionError m) := by
  refine ⟨rfl, ?_, ?_⟩
  · intro m hm
    exact PyError.noConfusion hm
  · intro m hm
    exact PyError.noConfusion hm

/-- C10: append with `metadata = []` behaves exactly like append with
`metadata = None`: the traces coincide (same rows, no metadata columns),
the errors coincide (in particular no length-mismatch validation error
even though `0 ≠ len(embeddings)`), and the calls succeed together. -/
theorem c10_empty_metadata_list (cfg : StoreConfig) (e : List EmbInput) (c : List PyVal)
    (r : RemoteOutcome) :
    ((add_embeddings cfg e c (Option.some []) r).1
      = (add_embeddings cfg e c Option.none r).1) ∧
    (∀ err, (add_embeddings cfg e c (Option.some []) r).2 = Except.error err ↔
      (add_embeddings cfg e c Option.none r).2 = Except.error err) ∧
    ((add_embeddings cfg e c (Option.some []) r).2 = Except.ok (Option.some []) ↔
      (add_embeddings cfg e c Option.none r).2 = Except.ok Option.none) := by
  rw [add_embeddings_some_nil]
  refine ⟨rfl, ?_, ?_⟩
  · intro err
    cases hx : (add_embeddings cfg e c Option.none r).2 with
    | error a => simp [hx, Except.map]
    | ok v => simp [hx, Except.map]
  · cases hx : (add_embeddings cfg e c Option.none r).2 with
    | error a => simp [hx, Except.map]
    | ok v =>
      obtain ⟨pairs, d, hb, hout, hr, h1, h2, h3⟩ :=
        add_embeddings_ok_inv cfg e c Option.none r v hx
      have hv : v = Option.none := by
        rw [hout]
        rfl
      subst hv
      simp [hx, Except.map]

/-- Witness for C10 at a concrete one-item append. -/
theorem c10_empty_metadata_list_witness :
    (add_embeddings defaultConfig [EmbInput.ndarray [1]] [PyVal.str "c"]
        (Option.some []) (RemoteOutcome.ok [])).2 = Except.ok (Option.some []) :=
  (c10_empty_metadata_list defaultConfig [EmbInput.ndarray [1]] [PyVal.str "c"]
    (RemoteOutcome.ok [])).2.2.mpr rfl
